import Mathlib

/-!
# minilisysm: a shallow embedding of the CPU utilisation sampler

The development follows `src/cpu_monitor.h`, `src/cpu_monitor.cpp` and `src/main.cpp`.

* `unsigned long long` values are natural numbers; every addition and subtraction
  is reduced modulo `2 ^ 64` exactly where the C++ expression wraps.
* A finite `double` is the rational number it denotes.  `roundDouble` is IEEE-754
  binary64 round-to-nearest, ties-to-even, with 53 significant bits.  Every
  intermediate value of `usage_between` is either `0` or has a magnitude between
  `2 ^ (-64)` and `2 ^ 71`, so neither overflow nor subnormal numbers arise and the
  division is guarded by `totald > 0`: no infinity and no NaN is ever produced.
* The outside world of `CpuMonitor::run` (the contents of `/proc/stat` at every
  read, the interrupt flag, the wall clock) is an explicit environment `Env`, and
  the effects of a run are recorded as a list of `Event`s.
-/

namespace CpuMonitor

/-! ## Machine arithmetic -/

/-- Modulus of `unsigned long long` and of `std::size_t`. -/
def U64 : ℕ := 2 ^ 64

/-- Wrapping addition of two `unsigned long long` values. -/
def add64 (x y : ℕ) : ℕ := (x + y) % U64

/-- Wrapping subtraction `x - y` of two `unsigned long long` values. -/
def sub64 (x y : ℕ) : ℕ := (x + (U64 - y % U64)) % U64

/-- Round a rational to the nearest integer, ties to the even integer. -/
def roundHalfEven (m : ℚ) : ℤ :=
  let f := ⌊m⌋
  if m - f < 1 / 2 then f
  else if 1 / 2 < m - f then f + 1
  else if f % 2 = 0 then f else f + 1

/-- The binary64 value nearest to `q` (ties to even): the significand `q / ulp` lies in
`[2 ^ 52, 2 ^ 53)` and is rounded to an integer. -/
def roundDouble (q : ℚ) : ℚ :=
  if q = 0 then 0
  else
    let ulp : ℚ := 2 ^ (Int.log 2 |q| - 52)
    roundHalfEven (q / ulp) * ulp

/-- Conversion `static_cast<double>(n)` of an `unsigned long long`. -/
def toDouble (n : ℕ) : ℚ := roundDouble (n : ℚ)

/-! ## Data model (`cpu_monitor.h`) -/

/-- Counters of one `/proc/stat` line: `struct CpuTimes`. -/
structure CpuTimes where
  user : ℕ := 0
  nice : ℕ := 0
  system : ℕ := 0
  idle : ℕ := 0
  iowait : ℕ := 0
  irq : ℕ := 0
  softirq : ℕ := 0
  steal : ℕ := 0
  guest : ℕ := 0
  guest_nice : ℕ := 0
deriving DecidableEq, Repr

/-- Every field fits an `unsigned long long`. -/
def CpuTimes.wf (t : CpuTimes) : Prop :=
  t.user < U64 ∧ t.nice < U64 ∧ t.system < U64 ∧ t.idle < U64 ∧ t.iowait < U64 ∧
  t.irq < U64 ∧ t.softirq < U64 ∧ t.steal < U64 ∧ t.guest < U64 ∧ t.guest_nice < U64

instance (t : CpuTimes) : Decidable t.wf := by
  unfold CpuTimes.wf; infer_instance

/-- One sample: `struct Snapshot`, the vector of (name, counters) pairs. -/
structure Snapshot where
  cpus : List (String × CpuTimes) := []
deriving DecidableEq, Repr

/-- Run configuration: `CpuMonitor::Options`. -/
structure Options where
  json_mode : Bool := false
  interval_ms : Int := 1000
  max_samples : Int := -1
deriving DecidableEq, Repr

/-! ## Quantities the specification speaks about (unbounded integers) -/

/-- Idle time `idle + iowait` as a mathematical integer. -/
def CpuTimes.idleSum (t : CpuTimes) : ℕ := t.idle + t.iowait

/-- Active time `user + nice + system + irq + softirq + steal` as a mathematical integer. -/
def CpuTimes.activeSum (t : CpuTimes) : ℕ :=
  t.user + t.nice + t.system + t.irq + t.softirq + t.steal

/-- The eight-field total `user+nice+system+idle+iowait+irq+softirq+steal`. -/
def CpuTimes.total (t : CpuTimes) : ℕ := t.idleSum + t.activeSum

/-- The formula of the specification in exact arithmetic over the true integer differences:
`0` when `total_delta <= 0`, else `(total_delta - idle_delta) / total_delta * 100`. -/
def usage_percent_spec (prev curr : CpuTimes) : ℚ :=
  let total_delta : ℤ := (curr.total : ℤ) - prev.total
  let idle_delta : ℤ := (curr.idleSum : ℤ) - prev.idleSum
  if total_delta ≤ 0 then 0
  else ((total_delta - idle_delta : ℤ) : ℚ) / (total_delta : ℚ) * 100

/-! ## `CpuMonitor::usage_between` and `CpuMonitor::color_for_usage` -/

/-- Utilisation between two samples, `cpu_monitor.cpp` lines 101-117. -/
def usage_between (a b : CpuTimes) : ℚ :=
  let idle_a := add64 a.idle a.iowait
  let idle_b := add64 b.idle b.iowait
  let non_a := add64 (add64 (add64 (add64 (add64 a.user a.nice) a.system) a.irq) a.softirq) a.steal
  let non_b := add64 (add64 (add64 (add64 (add64 b.user b.nice) b.system) b.irq) b.softirq) b.steal
  let total_a := add64 idle_a non_a
  let total_b := add64 idle_b non_b
  let totald := toDouble (sub64 total_b total_a)
  let idled := toDouble (sub64 idle_b idle_a)
  if totald ≤ 0 then 0
  else roundDouble (roundDouble (roundDouble (totald - idled) / totald) * 100)

/-- Escape sequence selecting green. -/
def GREEN : String := "\x1b[32m"

/-- Escape sequence selecting yellow. -/
def YELLOW : String := "\x1b[33m"

/-- Escape sequence selecting red. -/
def RED : String := "\x1b[31m"

/-- Colour of a usage value, `cpu_monitor.cpp` lines 40-50. -/
def color_for_usage (usage : ℚ) : String :=
  if usage < 30 then GREEN
  else if usage < 70 then YELLOW
  else RED

/-! ## Observable effects -/

/-- One observable action of the process, in program order. -/
inductive Event
/-- A line written to `std::cerr`. -/
  | cerr (text : String)
/-- Text written to `std::cout` by `main` (usage text, hint). -/
  | cout (text : String)
/-- The banner block written by `print_header`. -/
  | header (interval_ms : Int)
/-- One JSON record line with fields `ts`, `cpu`, `usage`. -/
  | json_record (ts : String) (cpu : String) (usage : ℚ)
/-- One human-readable record line: time, name, colour, usage, reset. -/
  | text_record (ts : String) (cpu : String) (color : String) (usage : ℚ)
/-- The farewell line `Bye.`. -/
  | bye
/-- A call of `std::this_thread::sleep_for`. -/
  | sleep (interval_ms : Int)
/-- A call of `read_proc_stat`. -/
  | read
deriving DecidableEq, Repr

/-- The event is a per-core record (of either output mode). -/
def Event.isRecord : Event → Bool
  | .json_record _ _ _ => true
  | .text_record _ _ _ _ => true
  | _ => false

/-- The event is the farewell line. -/
def Event.isBye : Event → Bool
  | .bye => true
  | _ => false

/-- The event is a banner block. -/
def Event.isHeader : Event → Bool
  | .header _ => true
  | _ => false

/-- The event is a diagnostic on the error stream. -/
def Event.isCerr : Event → Bool
  | .cerr _ => true
  | _ => false

/-- The event is a read of the counter source. -/
def Event.isRead : Event → Bool
  | .read => true
  | _ => false

/-- The event is a sleep between two samples. -/
def Event.isSleep : Event → Bool
  | .sleep _ => true
  | _ => false

/-! ## Argument parsing (`main.cpp`) -/

/-- Result of `std::stoi`: the value, or the exception it throws. -/
inductive StoiResult
  | value (n : Int)
  | invalid_argument
  | out_of_range
deriving DecidableEq, Repr

/-- The C locale `isspace`. -/
def isspace (c : Char) : Bool :=
  c = ' ' || c = '\t' || c = '\n' || c = '\x0b' || c = '\x0c' || c = '\r'

/-- Value of a string of decimal digits. -/
def digitsValue (ds : List Char) : ℕ :=
  ds.foldl (fun acc c => 10 * acc + (c.toNat - 48)) 0

/-- The standard library function `std::stoi(str)` in base 10: leading white space is
skipped, an optional sign and the longest run of digits are converted, the rest of the
string is ignored; no digit gives `invalid_argument`, a value outside `int` gives
`out_of_range`. -/
def stoi (s : String) : StoiResult :=
  let body := s.toList.dropWhile isspace
  let neg := body.head? = some '-'
  let rest := if body.head? = some '-' ∨ body.head? = some '+' then body.tail else body
  let ds := rest.takeWhile Char.isDigit
  if ds = [] then .invalid_argument
  else
    let v : Int := if neg then -(digitsValue ds : Int) else (digitsValue ds : Int)
    if v < -2147483648 ∨ 2147483647 < v then .out_of_range
    else .value v

/-- How the argument loop of `main` ends. -/
inductive ParseResult
/-- The loop ran to `i = argc`; `main` goes on to construct the monitor and call `run`. -/
  | proceed (opt : Options)
/-- A `return` inside the loop, after the given output. -/
  | exit (code : Int) (out : List Event)
/-- An exception of `std::stoi` leaves `main` uncaught (`std::terminate`). -/
  | uncaught (e : StoiResult)
/-- The call `std::stoi(argv[argc])` on the terminating null pointer, after the given output. -/
  | null_value (out : List Event)
deriving DecidableEq, Repr

/-- The loop `for (int i = 1; i < argc; ++i)` of `main.cpp` lines 8-46, started at
argument `i` with the remaining arguments `argv[i], ..., argv[argc-1]`.  The interval
branch reads `argv[i + 1]` and leaves `i` alone; the count branch reads `argv[++i]`. -/
def parse_args (argv0 : String) : Options → List String → ParseResult
  | opt, [] => .proceed opt
  | opt, arg :: rest =>
    if arg = "--json" then
      parse_args argv0 { opt with json_mode := true } rest
    else if arg = "i" ∨ arg = "--interval" then
      match rest with
      | [] => .null_value [.cerr ("miss value for" ++ arg ++ "\n")]
      | v :: _ =>
        match stoi v with
        | .value n =>
          if n ≤ 0 then .exit 1 [.cerr "interval must be >0ms\n"]
          else parse_args argv0 { opt with interval_ms := n } rest
        | e => .uncaught e
    else if arg = "-n" ∨ arg = "--count" then
      match rest with
      | [] => .exit 1 [.cerr ("Missing value for " ++ arg ++ "\n")]
      | v :: rest2 =>
        match stoi v with
        | .value n =>
          if n ≤ 0 then .exit 1 [.cerr "count must be > 0\n"]
          else parse_args argv0 { opt with max_samples := n } rest2
        | e => .uncaught e
    else if arg = "-h" ∨ arg = "--help" then
      .exit 0 [.cout ("Usage: " ++ argv0 ++ " [options]\n" ++ "Options:\n"
        ++ "  --json        Output JSON lines (ts, cpu, usage)\n"
        ++ "  -h, --help    Show this help message\n")]
    else
      .exit 1 [.cerr ("Unknown option: " ++ arg ++ "\n"), .cout "Use -h or --help for usage.\n"]

/-! ## The sampling loop (`CpuMonitor::run`) -/

/-- The outside world of one run. -/
structure Env where
/-- Result of the `k`-th call of `read_proc_stat` (call `0` is the baseline): the
snapshot, or the message of the exception thrown. -/
  read_proc_stat : ℕ → Except String Snapshot
/-- Value of `stop_` when the loop condition is evaluated for the `k`-th time. -/
  stop_ : ℕ → Bool
/-- Result of `current_timestamp` in the `k`-th iteration. -/
  current_timestamp : ℕ → String

/-- Banner, `cpu_monitor.cpp` lines 53-65. -/
def print_header (opt : Options) (header_every line_count : ℕ) : List Event :=
  if opt.json_mode then []
  else if line_count % header_every ≠ 0 then []
  else [.header opt.interval_ms]

/-- The line written for one core, lines 164-182. -/
def format_record (opt : Options) (ts name : String) (u : ℚ) : Event :=
  if opt.json_mode then .json_record ts name u
  else .text_record ts name (color_for_usage u) u

/-- Body of the `for` loop, lines 159-182: the record of core `i`, or `none` when an
index is outside its vector. -/
def emit_record (opt : Options) (ts : String) (prev curr : Snapshot) (i : ℕ) : Option Event :=
  match curr.cpus[i]?, prev.cpus[i]? with
  | some (name, b), some (_, a) => some (format_record opt ts name (usage_between a b))
  | _, _ => none

/-- The loop `for (i = ...; i < n; ++i)` with `todo = n - i` iterations left. -/
def emit_records (opt : Options) (ts : String) (prev curr : Snapshot) : ℕ → ℕ → Option (List Event)
  | _, 0 => some []
  | i, todo + 1 =>
    match emit_record opt ts prev curr i with
    | none => none
    | some e =>
      match emit_records opt ts prev curr (i + 1) todo with
      | none => none
      | some es => some (e :: es)

/-- Mutable state of `run`: the retained snapshot, the two `size_t` counters, the number
of loop-condition evaluations so far, and everything emitted so far. -/
structure Monitor where
  prev_ : Snapshot
  line_count : ℕ
  samples : ℕ
  iter : ℕ
  out : List Event

/-- Result of one evaluation of the `while` loop of `run`. -/
inductive Step
/-- The body completed; the loop condition is evaluated again. -/
  | next (s : Monitor)
/-- The loop was left (condition false, or `break`). -/
  | leave (s : Monitor)
/-- An index was outside its vector. -/
  | fault (s : Monitor)

/-- Events of one successful tick after the read: banner, then the records (lines 153-183). -/
def tick_output (opt : Options) (ts : String) (line_count : ℕ) (prev curr : Snapshot) :
    Option (List Event) :=
  let n := min prev.cpus.length curr.cpus.length
  match emit_records opt ts prev curr 0 n with
  | none => none
  | some recs => some (print_header opt 20 line_count ++ recs)

/-- One evaluation of `while (!stop_)` and of its body, lines 138-188. -/
def iteration (opt : Options) (env : Env) (s : Monitor) : Step :=
  if env.stop_ s.iter then .leave s
  else if 0 < opt.max_samples ∧ opt.max_samples.toNat % U64 ≤ s.samples then .leave s
  else
    let out1 := s.out ++ [.sleep opt.interval_ms, .read]
    match env.read_proc_stat (s.iter + 1) with
    | .error what => .leave { s with out := out1 ++ [.cerr ("Error: " ++ what ++ "\n")] }
    | .ok curr =>
      match tick_output opt (env.current_timestamp s.iter) s.line_count s.prev_ curr with
      | none => .fault { s with out := out1 }
      | some evs =>
        .next { prev_ := curr
                line_count := (s.line_count + 1) % U64
                samples := (s.samples + 1) % U64
                iter := s.iter + 1
                out := out1 ++ evs }

/-- How a run ends. -/
inductive Outcome
/-- Function `run` returned `code` after the given events. -/
  | returned (code : Int) (out : List Event)
/-- An index was outside its vector. -/
  | fault (out : List Event)
/-- The loop is still running after `fuel` evaluations of its condition. -/
  | running (out : List Event)

/-- The `while` loop, at most `fuel` evaluations of its condition. -/
def run_loop (opt : Options) (env : Env) : ℕ → Monitor → Step
  | 0, s => .next s
  | fuel + 1, s =>
    match iteration opt env s with
    | .next s2 => run_loop opt env fuel s2
    | r => r

/-- State of `run` when the loop is entered, after a successful baseline read (lines 125-136). -/
def initial (opt : Options) (snap : Snapshot) : Monitor :=
  { prev_ := snap, line_count := 0, samples := 0, iter := 0
    out := [.read] ++ print_header opt 20 0 }

/-- Function `CpuMonitor::run`, lines 120-194. -/
def run (opt : Options) (env : Env) (fuel : ℕ) : Outcome :=
  match env.read_proc_stat 0 with
  | .error what => .returned 1 [.read, .cerr ("Error: " ++ what ++ "\n")]
  | .ok snap =>
    match run_loop opt env fuel (initial opt snap) with
    | .leave s => .returned 0 (s.out ++ if opt.json_mode then [] else [.bye])
    | .fault s => .fault s.out
    | .next s => .running s.out

/-- How the process ends. -/
inductive ProcessResult
/-- The process exited normally with the status and the events given. -/
  | exited (code : Int) (out : List Event)
/-- The process was terminated by an uncaught exception or ran into undefined behaviour. -/
  | crashed (out : List Event)
/-- The sampling loop is still running. -/
  | running (out : List Event)

/-- Function `main` of `main.cpp`: `argv[0]` is `argv0`, the other arguments are `args`. -/
def main (argv0 : String) (args : List String) (env : Env) (fuel : ℕ) : ProcessResult :=
  match parse_args argv0 {} args with
  | .exit code out => .exited code out
  | .uncaught _ => .crashed []
  | .null_value out => .crashed out
  | .proceed opt =>
    match run opt env fuel with
    | .returned code out => .exited code out
    | .fault out => .crashed out
    | .running out => .running out

/-! ## The counter source reader (`CpuMonitor::read_proc_stat`) -/

/-- State of a `std::istringstream`: the characters not yet read and the fail bit.  An
empty `rest` stands for the end of the string (where the library also sets the eof bit,
after which every extraction fails). -/
structure IStream where
  rest : List Char
  fail : Bool
deriving DecidableEq, Repr

/-- Function `starts_with`, lines 69-72: `s.compare(0, strlen(pfx), pfx) == 0`. -/
def starts_with (s : String) (pfx : String) : Bool :=
  s.toList.take pfx.length = pfx.toList

/-- The extraction `iss >> name` of a `std::string`: white space is skipped and the
characters up to the next white space are taken; nothing left to take sets the fail bit. -/
def extract_string (s : IStream) (old : String) : String × IStream :=
  if s.fail then (old, s)
  else
    let body := s.rest.dropWhile isspace
    if body = [] then (old, ⟨[], true⟩)
    else (String.mk (body.takeWhile (fun c => !isspace c)),
      ⟨body.dropWhile (fun c => !isspace c), false⟩)

/-- The extraction `iss >> x` of an `unsigned long long` (decimal): white space is skipped,
an optional sign and the longest run of digits are converted.  A failed stream is left
alone; no digit stores 0 and sets the fail bit; a value of `2^64` or more stores the
largest value and sets the fail bit; a minus sign negates modulo `2^64`. -/
def extract_u64 (s : IStream) (old : ℕ) : ℕ × IStream :=
  if s.fail then (old, s)
  else
    let body := s.rest.dropWhile isspace
    if body = [] then (old, ⟨[], true⟩)
    else
      let neg := body.head? = some '-'
      let num := if body.head? = some '-' ∨ body.head? = some '+' then body.tail else body
      let ds := num.takeWhile Char.isDigit
      let after := num.dropWhile Char.isDigit
      if ds = [] then (0, ⟨after, true⟩)
      else if U64 ≤ digitsValue ds then (U64 - 1, ⟨after, true⟩)
      else if neg then ((U64 - digitsValue ds) % U64, ⟨after, false⟩)
      else (digitsValue ds, ⟨after, false⟩)

/-- Function `parse_cpu_fields`, lines 74-79: ten extractions into a zero-initialised
`CpuTimes`. -/
def parse_cpu_fields (iss : IStream) : CpuTimes :=
  let user := extract_u64 iss 0
  let nice := extract_u64 user.2 0
  let system := extract_u64 nice.2 0
  let idle := extract_u64 system.2 0
  let iowait := extract_u64 idle.2 0
  let irq := extract_u64 iowait.2 0
  let softirq := extract_u64 irq.2 0
  let steal := extract_u64 softirq.2 0
  let guest := extract_u64 steal.2 0
  let guest_nice := extract_u64 guest.2 0
  { user := user.1, nice := nice.1, system := system.1, idle := idle.1, iowait := iowait.1
    irq := irq.1, softirq := softirq.1, steal := steal.1, guest := guest.1
    guest_nice := guest_nice.1 }

/-- Body of the `getline` loop for a line that passed `starts_with`, lines 92-96. -/
def parse_line (line : String) : String × CpuTimes :=
  let name := extract_string ⟨line.toList, false⟩ ""
  (name.1, parse_cpu_fields name.2)

/-- The loop `while (std::getline(in, line))`, lines 90-97, over the lines of the file. -/
def read_lines : List String → List (String × CpuTimes)
  | [] => []
  | line :: rest =>
    if !starts_with line "cpu" then []
    else parse_line line :: read_lines rest

/-- Function `read_proc_stat`, lines 81-99.  The argument is the content of `/proc/stat`
as a list of lines, or `none` when the file cannot be opened. -/
def read_proc_stat (file : Option (List String)) : Except String Snapshot :=
  match file with
  | none => .error "Failed to open /proc/stat"
  | some lines => .ok { cpus := read_lines lines }

/-- Counters taken in order from a list of values: a missing value is 0, values after the
tenth are not used. -/
def CpuTimes.ofList (vs : List ℕ) : CpuTimes :=
  { user := vs.getD 0 0, nice := vs.getD 1 0, system := vs.getD 2 0, idle := vs.getD 3 0
    iowait := vs.getD 4 0, irq := vs.getD 5 0, softirq := vs.getD 6 0, steal := vs.getD 7 0
    guest := vs.getD 8 0, guest_nice := vs.getD 9 0 }

/-- Text of a sequence of fields, each a separator followed by a string of digits. -/
def render_fields : List (List Char × List Char) → List Char
  | [] => []
  | t :: ts => t.1 ++ t.2 ++ render_fields ts

/-- The first `n` extractions of `unsigned long long` values from a stream. -/
def extract_many : ℕ → IStream → List ℕ
  | 0, _ => []
  | n + 1, s => (extract_u64 s 0).1 :: extract_many n (extract_u64 s 0).2

/-! ## Rounding to the nearest integer -/

theorem roundHalfEven_intCast (z : ℤ) : roundHalfEven (z : ℚ) = z := by
  simp [roundHalfEven]

theorem floor_le_roundHalfEven (m : ℚ) : ⌊m⌋ ≤ roundHalfEven m := by
  unfold roundHalfEven
  simp only
  split_ifs <;> omega

theorem roundHalfEven_le_floor_add_one (m : ℚ) : roundHalfEven m ≤ ⌊m⌋ + 1 := by
  unfold roundHalfEven
  simp only
  split_ifs <;> omega

theorem roundHalfEven_mono {x y : ℚ} (h : x ≤ y) : roundHalfEven x ≤ roundHalfEven y := by
  have hf : ⌊x⌋ ≤ ⌊y⌋ := Int.floor_mono h
  rcases lt_or_eq_of_le hf with hlt | heq
  · calc roundHalfEven x ≤ ⌊x⌋ + 1 := roundHalfEven_le_floor_add_one x
      _ ≤ ⌊y⌋ := hlt
      _ ≤ roundHalfEven y := floor_le_roundHalfEven y
  · unfold roundHalfEven
    simp only
    rw [heq]
    split_ifs <;> first | omega | (exfalso; linarith)

theorem abs_roundHalfEven_sub_le (m : ℚ) : |(roundHalfEven m : ℚ) - m| ≤ 1 / 2 := by
  have h1 := Int.floor_le m
  have h2 := Int.lt_floor_add_one m
  unfold roundHalfEven
  simp only
  rw [abs_le]
  split_ifs <;> constructor <;> push_cast <;> linarith
/-! ## Rounding to binary64 -/

theorem roundDouble_zero : roundDouble 0 = 0 := by
  simp [roundDouble]

theorem log_eq_of_binade {r : ℚ} {e : ℤ} (h1 : (2 : ℚ) ^ e ≤ r) (h2 : r < 2 ^ (e + 1)) :
    Int.log 2 r = e := by
  have hr : 0 < r := lt_of_lt_of_le (by positivity) h1
  have ha : e ≤ Int.log 2 r := by
    rw [← Int.zpow_le_iff_le_log (by norm_num) hr]
    simpa using h1
  have hb : Int.log 2 r < e + 1 := by
    rw [← Int.lt_zpow_iff_log_lt (by norm_num) hr]
    simpa using h2
  omega

theorem binade_of_pos {r : ℚ} (hr : 0 < r) :
    (2 : ℚ) ^ Int.log 2 r ≤ r ∧ r < 2 ^ (Int.log 2 r + 1) := by
  constructor
  · simpa using Int.zpow_log_le_self (b := 2) (by norm_num) hr
  · simpa using Int.lt_zpow_succ_log_self (b := 2) (by norm_num) r

theorem roundDouble_of_binade {q : ℚ} {e : ℤ} (h1 : (2 : ℚ) ^ e ≤ |q|) (h2 : |q| < 2 ^ (e + 1)) :
    roundDouble q = roundHalfEven (q / 2 ^ (e - 52)) * 2 ^ (e - 52) := by
  have hq : q ≠ 0 := by
    intro h
    rw [h, abs_zero] at h1
    exact absurd h1 (not_le.mpr (by positivity))
  simp only [roundDouble, if_neg hq, log_eq_of_binade h1 h2]

theorem significand_bounds {q : ℚ} {e : ℤ} (h1 : (2 : ℚ) ^ e ≤ q)
    (h2 : q < 2 ^ (e + 1)) :
    (2 : ℚ) ^ (52 : ℕ) ≤ q / 2 ^ (e - 52) ∧ q / 2 ^ (e - 52) < 2 ^ (53 : ℕ) := by
  have hu : (0 : ℚ) < 2 ^ (e - 52) := by positivity
  have e1 : (2 : ℚ) ^ (52 : ℕ) * 2 ^ (e - 52) = 2 ^ e := by
    rw [← zpow_natCast, ← zpow_add₀ (by norm_num)]; congr 1; omega
  have e2 : (2 : ℚ) ^ (53 : ℕ) * 2 ^ (e - 52) = 2 ^ (e + 1) := by
    rw [← zpow_natCast, ← zpow_add₀ (by norm_num)]; congr 1; omega
  constructor
  · rw [le_div_iff₀ hu, e1]; exact h1
  · rw [div_lt_iff₀ hu, e2]; exact h2

theorem roundDouble_bounds {q : ℚ} {e : ℤ} (h1 : (2 : ℚ) ^ e ≤ q) (h2 : q < 2 ^ (e + 1)) :
    (2 : ℚ) ^ e ≤ roundDouble q ∧ roundDouble q ≤ 2 ^ (e + 1) := by
  have hq : 0 < q := lt_of_lt_of_le (by positivity) h1
  have hu : (0 : ℚ) < 2 ^ (e - 52) := by positivity
  have e1 : (2 : ℚ) ^ (52 : ℕ) * 2 ^ (e - 52) = 2 ^ e := by
    rw [← zpow_natCast, ← zpow_add₀ (by norm_num)]; congr 1; omega
  have e2 : (2 : ℚ) ^ (53 : ℕ) * 2 ^ (e - 52) = 2 ^ (e + 1) := by
    rw [← zpow_natCast, ← zpow_add₀ (by norm_num)]; congr 1; omega
  obtain ⟨s1, s2⟩ := significand_bounds h1 h2
  rw [roundDouble_of_binade (by rwa [abs_of_pos hq]) (by rwa [abs_of_pos hq])]
  have r1 : ((2 ^ (52 : ℕ) : ℤ) : ℚ) ≤ roundHalfEven (q / 2 ^ (e - 52)) := by
    have := roundHalfEven_mono (x := ((2 ^ (52 : ℕ) : ℤ) : ℚ)) (y := q / 2 ^ (e - 52))
      (by push_cast; exact s1)
    rw [roundHalfEven_intCast] at this
    exact_mod_cast this
  have r2 : (roundHalfEven (q / 2 ^ (e - 52)) : ℚ) ≤ ((2 ^ (53 : ℕ) : ℤ) : ℚ) := by
    have := roundHalfEven_mono (x := q / 2 ^ (e - 52)) (y := ((2 ^ (53 : ℕ) : ℤ) : ℚ))
      (by push_cast; exact s2.le)
    rw [roundHalfEven_intCast] at this
    exact_mod_cast this
  push_cast at r1 r2
  constructor
  · rw [← e1]; exact mul_le_mul_of_nonneg_right r1 hu.le
  · rw [← e2]; exact mul_le_mul_of_nonneg_right r2 hu.le

theorem roundDouble_pos {q : ℚ} (hq : 0 < q) : 0 < roundDouble q := by
  obtain ⟨h1, h2⟩ := binade_of_pos hq
  exact lt_of_lt_of_le (by positivity) (roundDouble_bounds h1 h2).1

theorem roundDouble_mono_of_pos {x y : ℚ} (hx : 0 < x) (h : x ≤ y) :
    roundDouble x ≤ roundDouble y := by
  have hy : 0 < y := lt_of_lt_of_le hx h
  obtain ⟨x1, x2⟩ := binade_of_pos hx
  obtain ⟨y1, y2⟩ := binade_of_pos hy
  have hle : Int.log 2 x ≤ Int.log 2 y := Int.log_mono_right hx h
  rcases lt_or_eq_of_le hle with hlt | heq
  · calc roundDouble x ≤ 2 ^ (Int.log 2 x + 1) := (roundDouble_bounds x1 x2).2
      _ ≤ 2 ^ Int.log 2 y := zpow_le_zpow_right₀ (by norm_num) (by omega)
      _ ≤ roundDouble y := (roundDouble_bounds y1 y2).1
  · rw [roundDouble_of_binade (by rwa [abs_of_pos hx]) (by rwa [abs_of_pos hx]),
      roundDouble_of_binade (by rwa [abs_of_pos hy]) (by rwa [abs_of_pos hy]), heq]
    have hu : (0 : ℚ) < 2 ^ (Int.log 2 y - 52) := by positivity
    apply mul_le_mul_of_nonneg_right _ hu.le
    exact_mod_cast roundHalfEven_mono (div_le_div_of_nonneg_right h hu.le)

theorem roundDouble_mono_of_nonneg {x y : ℚ} (hx : 0 ≤ x) (h : x ≤ y) :
    roundDouble x ≤ roundDouble y := by
  rcases lt_or_eq_of_le hx with hpos | hzero
  · exact roundDouble_mono_of_pos hpos h
  · rw [← hzero, roundDouble_zero]
    rcases lt_or_eq_of_le (hx.trans h) with hy | hy
    · exact (roundDouble_pos hy).le
    · rw [← hy, roundDouble_zero]
theorem roundHalfEven_eq_of_near {m : ℚ} {z : ℤ} (h1 : (z : ℚ) - 1 / 2 < m)
    (h2 : m < (z : ℚ) + 1 / 2) : roundHalfEven m = z := by
  have h := abs_le.mp (abs_roundHalfEven_sub_le m)
  have a : (roundHalfEven m : ℚ) < (z : ℚ) + 1 := by linarith [h.2]
  have b : (z : ℚ) - 1 < (roundHalfEven m : ℚ) := by linarith [h.1]
  have a2 : roundHalfEven m < z + 1 := by exact_mod_cast a
  have b2 : z - 1 < roundHalfEven m := by exact_mod_cast b
  omega

theorem roundDouble_exact_of_lt (z k : ℤ) (hz : |z| < 2 ^ 53) :
    roundDouble ((z : ℚ) * 2 ^ k) = (z : ℚ) * 2 ^ k := by
  by_cases hz0 : z = 0
  · simp [hz0, roundDouble_zero]
  have hq : (z : ℚ) * 2 ^ k ≠ 0 := by
    apply mul_ne_zero
    · exact_mod_cast hz0
    · positivity
  obtain ⟨b1, -⟩ := binade_of_pos (abs_pos.mpr hq)
  set e := Int.log 2 |(z : ℚ) * 2 ^ k| with he
  have habs : |(z : ℚ) * 2 ^ k| = |(z : ℚ)| * 2 ^ k := by
    rw [abs_mul, abs_of_pos (by positivity : (0 : ℚ) < 2 ^ k)]
  have hzq : |(z : ℚ)| < 2 ^ (53 : ℤ) := by
    have : ((|z| : ℤ) : ℚ) < ((2 ^ 53 : ℤ) : ℚ) := by exact_mod_cast hz
    rw [Int.cast_abs] at this
    norm_num at this ⊢
    exact this
  have hlt : (2 : ℚ) ^ e < 2 ^ (53 + k) := by
    calc (2 : ℚ) ^ e ≤ |(z : ℚ)| * 2 ^ k := by rw [← habs]; exact b1
      _ < 2 ^ (53 : ℤ) * 2 ^ k := mul_lt_mul_of_pos_right hzq (by positivity)
      _ = 2 ^ (53 + k) := by rw [← zpow_add₀ (by norm_num)]
  have hek : e < 53 + k := (zpow_lt_zpow_iff_right₀ (by norm_num)).mp hlt
  obtain ⟨n, hn⟩ := Int.eq_ofNat_of_zero_le (show 0 ≤ k - (e - 52) by omega)
  have hdiv : (z : ℚ) * 2 ^ k / 2 ^ (e - 52) = ((z * 2 ^ n : ℤ) : ℚ) := by
    push_cast
    rw [mul_div_assoc, ← zpow_sub₀ (by norm_num), hn, zpow_natCast]
  simp only [roundDouble, if_neg hq]
  rw [← he, hdiv, roundHalfEven_intCast, ← hdiv]
  exact div_mul_cancel₀ _ (by positivity)

theorem roundDouble_exact (z k : ℤ) (hz : |z| ≤ 2 ^ 53) :
    roundDouble ((z : ℚ) * 2 ^ k) = (z : ℚ) * 2 ^ k := by
  rcases lt_or_eq_of_le hz with h | h
  · exact roundDouble_exact_of_lt z k h
  · have hw : z = (z / 2) * 2 := by
      rcases abs_eq (by norm_num : (0 : ℤ) ≤ 2 ^ 53) |>.mp h with h2 | h2 <;> rw [h2] <;> norm_num
    have hwlt : |z / 2| < 2 ^ 53 := by
      rcases abs_eq (by norm_num : (0 : ℤ) ≤ 2 ^ 53) |>.mp h with h2 | h2 <;> rw [h2] <;> norm_num
    have key : (z : ℚ) * 2 ^ k = ((z / 2 : ℤ) : ℚ) * 2 ^ (k + 1) := by
      rw [zpow_add₀ (by norm_num), zpow_one]
      have : (z : ℚ) = ((z / 2 : ℤ) : ℚ) * 2 := by exact_mod_cast hw
      rw [this]
      have h3 : (((z / 2 : ℤ) : ℚ) * 2 : ℚ) = (((z / 2 * 2 : ℤ) : ℤ) : ℚ) := by push_cast; ring
      rw [h3, ← hw, this]
      ring
    rw [key]
    exact roundDouble_exact_of_lt _ _ hwlt

theorem roundDouble_intCast (z : ℤ) (hz : |z| ≤ 2 ^ 53) : roundDouble (z : ℚ) = z := by
  simpa using roundDouble_exact z 0 hz

theorem roundDouble_natCast (n : ℕ) (hn : n ≤ 2 ^ 53) : roundDouble (n : ℚ) = n := by
  have := roundDouble_intCast (n : ℤ) (by rw [abs_of_nonneg (by positivity)]; exact_mod_cast hn)
  simpa using this

theorem roundDouble_idem (q : ℚ) : roundDouble (roundDouble q) = roundDouble q := by
  by_cases hq : q = 0
  · simp [hq, roundDouble_zero]
  obtain ⟨b1, b2⟩ := binade_of_pos (abs_pos.mpr hq)
  set e := Int.log 2 |q| with he
  have hu : (0 : ℚ) < 2 ^ (e - 52) := by positivity
  have e2 : (2 : ℚ) ^ (53 : ℕ) * 2 ^ (e - 52) = 2 ^ (e + 1) := by
    rw [← zpow_natCast, ← zpow_add₀ (by norm_num)]; congr 1; omega
  have hm : |q / 2 ^ (e - 52)| < 2 ^ (53 : ℕ) := by
    rw [abs_div, abs_of_pos hu, div_lt_iff₀ hu, e2]; exact b2
  obtain ⟨m1, m2⟩ := abs_lt.mp hm
  have r1 : (-(2 ^ (53 : ℕ)) : ℤ) ≤ roundHalfEven (q / 2 ^ (e - 52)) := by
    have := roundHalfEven_mono (x := ((-(2 ^ (53 : ℕ)) : ℤ) : ℚ)) (y := q / 2 ^ (e - 52))
      (by push_cast; exact m1.le)
    rwa [roundHalfEven_intCast] at this
  have r2 : roundHalfEven (q / 2 ^ (e - 52)) ≤ ((2 ^ (53 : ℕ)) : ℤ) := by
    have := roundHalfEven_mono (x := q / 2 ^ (e - 52)) (y := (((2 ^ (53 : ℕ)) : ℤ) : ℚ))
      (by push_cast; exact m2.le)
    rwa [roundHalfEven_intCast] at this
  have hrq : roundDouble q = (roundHalfEven (q / 2 ^ (e - 52)) : ℚ) * 2 ^ (e - 52) := by
    simp only [roundDouble, if_neg hq, ← he]
  rw [hrq]
  exact roundDouble_exact _ _ (abs_le.mpr ⟨r1, r2⟩)

theorem roundDouble_error (q : ℚ) : |roundDouble q - q| ≤ |q| / 2 ^ 53 := by
  by_cases hq : q = 0
  · simp [hq, roundDouble_zero]
  obtain ⟨b1, -⟩ := binade_of_pos (abs_pos.mpr hq)
  set e := Int.log 2 |q| with he
  have hu : (0 : ℚ) < 2 ^ (e - 52) := by positivity
  have hrq : roundDouble q = (roundHalfEven (q / 2 ^ (e - 52)) : ℚ) * 2 ^ (e - 52) := by
    simp only [roundDouble, if_neg hq, ← he]
  have hsplit : roundDouble q - q
      = ((roundHalfEven (q / 2 ^ (e - 52)) : ℚ) - q / 2 ^ (e - 52)) * 2 ^ (e - 52) := by
    rw [hrq, sub_mul, div_mul_cancel₀ _ hu.ne.symm]
  have e3 : (2 : ℚ) ^ (e - 52) = 2 ^ e / 2 ^ (52 : ℕ) := by
    rw [zpow_sub₀ (by norm_num)]; norm_num
  rw [hsplit, abs_mul, abs_of_pos hu]
  calc |(roundHalfEven (q / 2 ^ (e - 52)) : ℚ) - q / 2 ^ (e - 52)| * 2 ^ (e - 52)
      ≤ 1 / 2 * 2 ^ (e - 52) := mul_le_mul_of_nonneg_right (abs_roundHalfEven_sub_le _) hu.le
    _ = 2 ^ e / 2 ^ 53 := by rw [e3]; ring
    _ ≤ |q| / 2 ^ 53 := div_le_div_of_nonneg_right b1 (by positivity)
theorem roundHalfEven_neg (m : ℚ) : roundHalfEven (-m) = -roundHalfEven m := by
  have f1 := Int.floor_le m
  have f2 := Int.lt_floor_add_one m
  have g1 := Int.floor_le (-m)
  have g2 := Int.lt_floor_add_one (-m)
  have s1 : ((⌊m⌋ + ⌊-m⌋ : ℤ) : ℚ) ≤ 0 := by push_cast; linarith
  have s2 : (-2 : ℚ) < ((⌊m⌋ + ⌊-m⌋ : ℤ) : ℚ) := by push_cast; linarith
  have s1z : ⌊m⌋ + ⌊-m⌋ ≤ 0 := by exact_mod_cast s1
  have s2z : -2 < ⌊m⌋ + ⌊-m⌋ := by exact_mod_cast s2
  have hg : ⌊-m⌋ = -⌊m⌋ - 1 ∨ ⌊-m⌋ = -⌊m⌋ := by omega
  unfold roundHalfEven
  simp only
  rcases hg with hg | hg <;> rw [hg] at g1 g2 ⊢ <;> push_cast at g1 g2 ⊢ <;>
    split_ifs <;> first | omega | (exfalso; linarith)

theorem roundDouble_neg (q : ℚ) : roundDouble (-q) = -roundDouble q := by
  by_cases hq : q = 0
  · simp [hq, roundDouble_zero]
  have hq2 : -q ≠ 0 := neg_ne_zero.mpr hq
  simp only [roundDouble, if_neg hq, if_neg hq2, abs_neg, neg_div, roundHalfEven_neg]
  push_cast
  ring

theorem roundDouble_mono {x y : ℚ} (h : x ≤ y) : roundDouble x ≤ roundDouble y := by
  rcases le_total 0 x with hx | hx
  · exact roundDouble_mono_of_nonneg hx h
  · rcases le_total 0 y with hy | hy
    · have a := roundDouble_mono_of_nonneg (le_refl 0) (neg_nonneg.mpr hx)
      have b := roundDouble_mono_of_nonneg (le_refl 0) hy
      rw [roundDouble_zero, roundDouble_neg] at a
      rw [roundDouble_zero] at b
      linarith
    · have a := roundDouble_mono_of_nonneg (neg_nonneg.mpr hy) (neg_le_neg h)
      rw [roundDouble_neg, roundDouble_neg] at a
      linarith

theorem roundDouble_nonneg {q : ℚ} (hq : 0 ≤ q) : 0 ≤ roundDouble q := by
  simpa [roundDouble_zero] using roundDouble_mono hq

theorem roundDouble_neg_of_neg {q : ℚ} (hq : q < 0) : roundDouble q < 0 := by
  have := roundDouble_pos (neg_pos.mpr hq)
  rw [roundDouble_neg] at this
  linarith

/-! ## Wrapping arithmetic -/

theorem wrapped_idle (t : CpuTimes) : add64 t.idle t.iowait = t.idleSum % U64 := rfl

theorem wrapped_total (t : CpuTimes) :
    add64 (add64 t.idle t.iowait)
      (add64 (add64 (add64 (add64 (add64 t.user t.nice) t.system) t.irq) t.softirq) t.steal)
      = t.total % U64 := by
  simp only [add64, CpuTimes.total, CpuTimes.idleSum, CpuTimes.activeSum, U64]
  omega

theorem sub64_of_delta {x y d : ℕ} (h : x = y + d) (hd : d < U64) :
    sub64 (x % U64) (y % U64) = d := by
  simp only [sub64, U64] at *
  omega

/-- The code of `usage_between` in terms of the unbounded sums. -/
theorem usage_between_eq (a b : CpuTimes) :
    usage_between a b =
      if toDouble (sub64 (b.total % U64) (a.total % U64)) ≤ 0 then 0
      else roundDouble (roundDouble (roundDouble
        (toDouble (sub64 (b.total % U64) (a.total % U64))
          - toDouble (sub64 (b.idleSum % U64) (a.idleSum % U64)))
        / toDouble (sub64 (b.total % U64) (a.total % U64))) * 100) := by
  simp only [usage_between, wrapped_total]
  simp only [wrapped_idle]
/-! ## Claims about `usage_between` -/

theorem toDouble_wrapped : toDouble 18446744073709551566 = 18446744073709551616 := by
  have h1 : (2 : ℚ) ^ (63 : ℤ) ≤ |(18446744073709551566 : ℚ)| := by norm_num
  have h2 : |(18446744073709551566 : ℚ)| < 2 ^ ((63 : ℤ) + 1) := by norm_num
  simp only [toDouble, Nat.cast_ofNat]
  rw [roundDouble_of_binade h1 h2,
    roundHalfEven_eq_of_near (z := 9007199254740992) (by norm_num) (by norm_num)]
  norm_num

/-- C1 (code at the failing input): the total went back from 100 to 50, yet
`usage_between` returns 100 and not 0: the unsigned difference wrapped to `2^64 - 50`. -/
theorem usage_between_regression_wraps :
    ({ user := 50 } : CpuTimes).total < ({ user := 100 } : CpuTimes).total ∧
    ({ user := 50 } : CpuTimes).wf ∧ ({ user := 100 } : CpuTimes).wf ∧
    usage_between { user := 100 } { user := 50 } = 100 := by
  refine ⟨by decide, by decide, by decide, ?_⟩
  have e1 : roundDouble (18446744073709551616 : ℚ) = 18446744073709551616 := by
    have := roundDouble_exact 1 64 (by norm_num)
    norm_num at this
    exact this
  have e2 : roundDouble (1 : ℚ) = 1 := by simpa using roundDouble_intCast 1 (by norm_num)
  have e3 : roundDouble (100 : ℚ) = 100 := by simpa using roundDouble_intCast 100 (by norm_num)
  have hs : sub64 (add64 (add64 0 0) (add64 (add64 (add64 (add64 (add64 50 0) 0) 0) 0) 0))
      (add64 (add64 0 0) (add64 (add64 (add64 (add64 (add64 100 0) 0) 0) 0) 0))
      = 18446744073709551566 := by decide
  have hi : sub64 (add64 0 0) (add64 0 0) = 0 := by decide
  simp only [usage_between, hs, hi, toDouble_wrapped]
  norm_num [toDouble, roundDouble_zero, e1, e2, e3]
theorem toDouble_zero : toDouble 0 = 0 := by
  simp [toDouble, roundDouble_zero]

theorem toDouble_of_le {n : ℕ} (hn : n ≤ 2 ^ 53) : toDouble n = n :=
  roundDouble_natCast n hn

theorem toDouble_mono {m n : ℕ} (h : m ≤ n) : toDouble m ≤ toDouble n :=
  roundDouble_mono (by exact_mod_cast h)

theorem toDouble_pos {n : ℕ} (h : 0 < n) : 0 < toDouble n :=
  roundDouble_pos (by exact_mod_cast h)

theorem roundDouble_one : roundDouble 1 = 1 := by
  simpa using roundDouble_intCast 1 (by norm_num)

theorem roundDouble_hundred : roundDouble 100 = 100 := by
  simpa using roundDouble_intCast 100 (by norm_num)

/-- The two conversions of `usage_between` when both true differences fit 64 bits. -/
theorem deltas_of_fit {prev curr : CpuTimes} (ht : prev.total ≤ curr.total)
    (hfit : curr.total - prev.total < 2 ^ 64) (hi : prev.idleSum ≤ curr.idleSum)
    (hifit : curr.idleSum - prev.idleSum < 2 ^ 64) :
    sub64 (curr.total % U64) (prev.total % U64) = curr.total - prev.total ∧
    sub64 (curr.idleSum % U64) (prev.idleSum % U64) = curr.idleSum - prev.idleSum := by
  constructor
  · exact sub64_of_delta (by omega) (by simpa [U64] using hfit)
  · exact sub64_of_delta (by omega) (by simpa [U64] using hifit)

/-- Range of the result from the order of the two converted differences. -/
theorem usage_range_of_le {T I : ℚ} (hT : 0 < T) (hTd : roundDouble T = T) (hI : 0 ≤ I)
    (hIT : I ≤ T) :
    0 ≤ roundDouble (roundDouble (roundDouble (T - I) / T) * 100) ∧
    roundDouble (roundDouble (roundDouble (T - I) / T) * 100) ≤ 100 := by
  have d0 : 0 ≤ roundDouble (T - I) := roundDouble_nonneg (by linarith)
  have d1 : roundDouble (T - I) ≤ T := by
    have := roundDouble_mono (show T - I ≤ T by linarith)
    rwa [hTd] at this
  have q0 : 0 ≤ roundDouble (roundDouble (T - I) / T) :=
    roundDouble_nonneg (div_nonneg d0 hT.le)
  have q1 : roundDouble (roundDouble (T - I) / T) ≤ 1 := by
    have := roundDouble_mono (show roundDouble (T - I) / T ≤ 1 from (div_le_one hT).mpr d1)
    rwa [roundDouble_one] at this
  constructor
  · exact roundDouble_nonneg (by positivity)
  · have := roundDouble_mono (show roundDouble (roundDouble (T - I) / T) * 100 ≤ 100 by linarith)
    rwa [roundDouble_hundred] at this

/-- The result is negative as soon as the converted idle difference exceeds the total one. -/
theorem usage_neg_of_lt {T I : ℚ} (hT : 0 < T) (hIT : T < I) :
    roundDouble (roundDouble (roundDouble (T - I) / T) * 100) < 0 := by
  have d : roundDouble (T - I) < 0 := roundDouble_neg_of_neg (by linarith)
  have q : roundDouble (roundDouble (T - I) / T) < 0 :=
    roundDouble_neg_of_neg (div_neg_of_neg_of_pos d hT)
  exact roundDouble_neg_of_neg (by linarith)

/-- C4: when the eight-field totals of the two samples are equal (in particular when the
samples are identical), `usage_between` returns exactly 0, whatever the fields are. -/
theorem usage_between_no_progress (prev curr : CpuTimes) (h : curr.total = prev.total) :
    usage_between prev curr = 0 := by
  have hz : sub64 (curr.total % U64) (prev.total % U64) = 0 :=
    sub64_of_delta (by omega) (by norm_num [U64])
  rw [usage_between_eq, hz, toDouble_zero]
  simp

theorem usage_between_no_progress_witness :
    ({ user := 3, idle := 5, guest := 1 } : CpuTimes).total
      = ({ user := 5, idle := 3 } : CpuTimes).total ∧
    usage_between { user := 5, idle := 3 } { user := 3, idle := 5, guest := 1 } = 0 :=
  ⟨by decide, usage_between_no_progress _ _ (by decide)⟩

/-- C2 (as stated, refuted): with the total advancing, the result leaves `[0, 100]` when the
active counters go back (first pair, result `-100`), when idle+iowait goes back (second
pair, negative result from the wrapped idle difference) and when the total advances by
`2^64` or more (third pair). -/
theorem usage_between_range_counterexample :
    (({ user := 10 } : CpuTimes).total ≤ ({ idle := 20 } : CpuTimes).total ∧
      0 < ({ idle := 20 } : CpuTimes).total - ({ user := 10 } : CpuTimes).total ∧
      usage_between { user := 10 } { idle := 20 } = -100) ∧
    (({ idle := 10 } : CpuTimes).total ≤ ({ user := 20, idle := 5 } : CpuTimes).total ∧
      0 < ({ user := 20, idle := 5 } : CpuTimes).total - ({ idle := 10 } : CpuTimes).total ∧
      usage_between { idle := 10 } { user := 20, idle := 5 } < 0) ∧
    (({ } : CpuTimes).total ≤ ({ user := 2, idle := 2 ^ 64 - 1 } : CpuTimes).total ∧
      0 < ({ user := 2, idle := 2 ^ 64 - 1 } : CpuTimes).total - ({ } : CpuTimes).total ∧
      ({ user := 2, idle := 2 ^ 64 - 1 } : CpuTimes).wf ∧
      usage_between { } { user := 2, idle := 2 ^ 64 - 1 } < 0) := by
  have big : (2 : ℚ) ^ 53 ≤ toDouble (2 ^ 53) := by
    rw [toDouble_of_le le_rfl]; norm_num
  refine ⟨⟨by decide, by decide, ?_⟩, ⟨by decide, by decide, ?_⟩, ⟨by decide, by decide, by decide, ?_⟩⟩
  · have hT : sub64 (({ idle := 20 } : CpuTimes).total % U64)
        (({ user := 10 } : CpuTimes).total % U64) = 10 := by decide
    have hI : sub64 (({ idle := 20 } : CpuTimes).idleSum % U64)
        (({ user := 10 } : CpuTimes).idleSum % U64) = 20 := by decide
    have e1 : roundDouble (-10 : ℚ) = -10 := by
      simpa using roundDouble_intCast (-10) (by norm_num)
    have e2 : roundDouble (-1 : ℚ) = -1 := by
      simpa using roundDouble_intCast (-1) (by norm_num)
    have e3 : roundDouble (-100 : ℚ) = -100 := by
      simpa using roundDouble_intCast (-100) (by norm_num)
    rw [usage_between_eq, hT, hI, toDouble_of_le (by norm_num), toDouble_of_le (by norm_num)]
    norm_num [e1, e2, e3]
  · have hT : sub64 (({ user := 20, idle := 5 } : CpuTimes).total % U64)
        (({ idle := 10 } : CpuTimes).total % U64) = 15 := by decide
    have hI : sub64 (({ user := 20, idle := 5 } : CpuTimes).idleSum % U64)
        (({ idle := 10 } : CpuTimes).idleSum % U64) = 18446744073709551611 := by decide
    have hTd : toDouble 15 = 15 := by simpa using toDouble_of_le (n := 15) (by norm_num)
    have hId : (2 : ℚ) ^ 53 ≤ toDouble 18446744073709551611 :=
      big.trans (toDouble_mono (by norm_num))
    rw [usage_between_eq, hT, hI, hTd, if_neg (by norm_num)]
    exact usage_neg_of_lt (by norm_num) (lt_of_lt_of_le (by norm_num) hId)
  · have hT : sub64 (({ user := 2, idle := 2 ^ 64 - 1 } : CpuTimes).total % U64)
        (({ } : CpuTimes).total % U64) = 1 := by decide
    have hI : sub64 (({ user := 2, idle := 2 ^ 64 - 1 } : CpuTimes).idleSum % U64)
        (({ } : CpuTimes).idleSum % U64) = 18446744073709551615 := by decide
    have hTd : toDouble 1 = 1 := by simpa using toDouble_of_le (n := 1) (by norm_num)
    have hId : (2 : ℚ) ^ 53 ≤ toDouble 18446744073709551615 :=
      big.trans (toDouble_mono (by norm_num))
    rw [usage_between_eq, hT, hI, hTd, if_neg (by norm_num)]
    exact usage_neg_of_lt (by norm_num) (lt_of_lt_of_le (by norm_num) hId)

/-- C2 (amended): when the total advances by less than `2^64` and neither idle+iowait nor
the active sum went back, `usage_between` returns a value in `[0, 100]`. -/
theorem usage_between_range (prev curr : CpuTimes)
    (hpos : prev.total < curr.total) (hfit : curr.total - prev.total < 2 ^ 64)
    (hidle : prev.idleSum ≤ curr.idleSum) (hact : prev.activeSum ≤ curr.activeSum) :
    0 ≤ usage_between prev curr ∧ usage_between prev curr ≤ 100 := by
  have hle : curr.idleSum - prev.idleSum ≤ curr.total - prev.total := by
    simp only [CpuTimes.total] at *; omega
  obtain ⟨hT, hI⟩ := deltas_of_fit hpos.le hfit hidle (lt_of_le_of_lt hle hfit)
  have hTpos : 0 < toDouble (curr.total - prev.total) := toDouble_pos (by omega)
  rw [usage_between_eq, hT, hI, if_neg (not_le.mpr hTpos)]
  exact usage_range_of_le hTpos (roundDouble_idem _) (roundDouble_nonneg (by positivity))
    (toDouble_mono hle)

theorem usage_between_range_witness :
    0 ≤ usage_between { user := 100, idle := 100 } { user := 101, idle := 102 } ∧
    usage_between { user := 100, idle := 100 } { user := 101, idle := 102 } ≤ 100 :=
  usage_between_range _ _ (by decide) (by decide) (by decide) (by decide)
theorem roundDouble_third : roundDouble (1 / 3) = 6004799503160661 / 18014398509481984 := by
  have h1 : (2 : ℚ) ^ (-2 : ℤ) ≤ |(1 / 3 : ℚ)| := by
    rw [abs_of_pos (by norm_num)]; norm_num
  have h2 : |(1 / 3 : ℚ)| < 2 ^ ((-2 : ℤ) + 1) := by
    rw [abs_of_pos (by norm_num)]; norm_num
  rw [roundDouble_of_binade h1 h2,
    roundHalfEven_eq_of_near (z := 6004799503160661) (by norm_num) (by norm_num)]
  norm_num

theorem roundDouble_third_hundred :
    roundDouble (6004799503160661 / 18014398509481984 * 100)
      = 2345624805922133 / 70368744177664 := by
  have h1 : (2 : ℚ) ^ (5 : ℤ) ≤ |(6004799503160661 / 18014398509481984 * 100 : ℚ)| := by
    rw [abs_of_pos (by norm_num)]; norm_num
  have h2 : |(6004799503160661 / 18014398509481984 * 100 : ℚ)| < 2 ^ ((5 : ℤ) + 1) := by
    rw [abs_of_pos (by norm_num)]; norm_num
  rw [roundDouble_of_binade h1 h2,
    roundHalfEven_eq_of_near (z := 4691249611844266) (by norm_num) (by norm_num)]
  norm_num

/-- C3 (as stated, refuted): with `total_delta > 0` the result differs from the exact
formula when idle+iowait went back (first pair: the formula gives `400/3`, the code a
negative number) and when the quotient is not a binary fraction (second pair: the
formula gives `100/3`, the code the double `33.33333333333333`). -/
theorem usage_between_formula_counterexample :
    (0 < (({ user := 20, idle := 5 } : CpuTimes).total : ℤ) - ({ idle := 10 } : CpuTimes).total ∧
      usage_percent_spec { idle := 10 } { user := 20, idle := 5 } = 400 / 3 ∧
      usage_between { idle := 10 } { user := 20, idle := 5 } < 0) ∧
    (0 < (({ user := 1, idle := 2 } : CpuTimes).total : ℤ) - ({ } : CpuTimes).total ∧
      usage_percent_spec { } { user := 1, idle := 2 } = 100 / 3 ∧
      usage_between { } { user := 1, idle := 2 } = 2345624805922133 / 70368744177664 ∧
      usage_between { } { user := 1, idle := 2 } ≠ usage_percent_spec { } { user := 1, idle := 2 }) := by
  have s1 : usage_percent_spec { idle := 10 } { user := 20, idle := 5 } = 400 / 3 := by
    norm_num [usage_percent_spec, CpuTimes.total, CpuTimes.idleSum, CpuTimes.activeSum]
  have s2 : usage_percent_spec { } { user := 1, idle := 2 } = 100 / 3 := by
    norm_num [usage_percent_spec, CpuTimes.total, CpuTimes.idleSum, CpuTimes.activeSum]
  have u2 : usage_between { } { user := 1, idle := 2 } = 2345624805922133 / 70368744177664 := by
    have hT : sub64 (({ user := 1, idle := 2 } : CpuTimes).total % U64)
        (({ } : CpuTimes).total % U64) = 3 := by decide
    have hI : sub64 (({ user := 1, idle := 2 } : CpuTimes).idleSum % U64)
        (({ } : CpuTimes).idleSum % U64) = 2 := by decide
    have hTd : toDouble 3 = 3 := by simpa using toDouble_of_le (n := 3) (by norm_num)
    have hId : toDouble 2 = 2 := by simpa using toDouble_of_le (n := 2) (by norm_num)
    have e1 : roundDouble ((3 : ℚ) - 2) = 1 := by norm_num [roundDouble_one]
    rw [usage_between_eq, hT, hI, hTd, hId, if_neg (by norm_num), e1, roundDouble_third,
      roundDouble_third_hundred]
  refine ⟨⟨by decide, s1, ?_⟩, ⟨by decide, s2, u2, ?_⟩⟩
  · have big : (2 : ℚ) ^ 53 ≤ toDouble (2 ^ 53) := by
      rw [toDouble_of_le le_rfl]; norm_num
    have hT : sub64 (({ user := 20, idle := 5 } : CpuTimes).total % U64)
        (({ idle := 10 } : CpuTimes).total % U64) = 15 := by decide
    have hI : sub64 (({ user := 20, idle := 5 } : CpuTimes).idleSum % U64)
        (({ idle := 10 } : CpuTimes).idleSum % U64) = 18446744073709551611 := by decide
    have hTd : toDouble 15 = 15 := by simpa using toDouble_of_le (n := 15) (by norm_num)
    have hId : (2 : ℚ) ^ 53 ≤ toDouble 18446744073709551611 :=
      big.trans (toDouble_mono (by norm_num))
    rw [usage_between_eq, hT, hI, hTd, if_neg (by norm_num)]
    exact usage_neg_of_lt (by norm_num) (lt_of_lt_of_le (by norm_num) hId)
  · rw [u2, s2]; norm_num

/-- Accumulated error of the quotient and the product, each rounded once. -/
theorem two_roundings_error (x : ℚ) :
    |roundDouble (roundDouble x * 100) - x * 100| ≤ |x * 100| / 2 ^ 51 := by
  have h1 := roundDouble_error x
  have h2 := roundDouble_error (roundDouble x * 100)
  have t1 : |roundDouble x| ≤ |x| + |roundDouble x - x| := by
    have := abs_add (roundDouble x - x) x
    rw [sub_add_cancel] at this
    linarith
  have t2 : |roundDouble (roundDouble x * 100) - x * 100|
      ≤ |roundDouble (roundDouble x * 100) - roundDouble x * 100| + |roundDouble x - x| * 100 := by
    have := abs_add (roundDouble (roundDouble x * 100) - roundDouble x * 100)
      ((roundDouble x - x) * 100)
    have e : roundDouble (roundDouble x * 100) - roundDouble x * 100 + (roundDouble x - x) * 100
        = roundDouble (roundDouble x * 100) - x * 100 := by ring
    rw [e, abs_mul, abs_of_pos (by norm_num : (0 : ℚ) < 100)] at this
    exact this
  rw [abs_mul, abs_of_pos (by norm_num : (0 : ℚ) < 100)] at h2 ⊢
  have hx := abs_nonneg x
  norm_num at h1 h2 ⊢
  linarith

/-- C3 (amended): when `total_delta > 0`, idle+iowait did not go back and both true
differences are below `2^53`, the code evaluates the formula of the specification with
the quotient and the product each rounded to the nearest double; the result is within
`|exact| / 2^51` of the exact value, and the pair `{user:100, idle:100}`,
`{user:150, idle:150}` gives exactly 50. -/
theorem usage_between_formula (prev curr : CpuTimes)
    (hpos : prev.total < curr.total) (hfit : curr.total - prev.total < 2 ^ 53)
    (hidle : prev.idleSum ≤ curr.idleSum) (hifit : curr.idleSum - prev.idleSum < 2 ^ 53) :
    usage_between prev curr
      = roundDouble (roundDouble ((((curr.total : ℤ) - prev.total
          - ((curr.idleSum : ℤ) - prev.idleSum) : ℤ) : ℚ)
          / (((curr.total : ℤ) - prev.total : ℤ) : ℚ)) * 100) ∧
    |usage_between prev curr - usage_percent_spec prev curr|
      ≤ |usage_percent_spec prev curr| / 2 ^ 51 ∧
    usage_between { user := 100, idle := 100 } { user := 150, idle := 150 } = 50 := by
  have key : ∀ p c : CpuTimes, p.total < c.total → c.total - p.total < 2 ^ 53 →
      p.idleSum ≤ c.idleSum → c.idleSum - p.idleSum < 2 ^ 53 →
      usage_between p c
        = roundDouble (roundDouble ((((c.total : ℤ) - p.total
            - ((c.idleSum : ℤ) - p.idleSum) : ℤ) : ℚ)
            / (((c.total : ℤ) - p.total : ℤ) : ℚ)) * 100) := by
    intro p c hp hf hi hif
    obtain ⟨hT, hI⟩ := deltas_of_fit hp.le (lt_trans hf (by norm_num)) hi
      (lt_trans hif (by norm_num))
    have hTpos : 0 < toDouble (c.total - p.total) := toDouble_pos (by omega)
    have hTd : toDouble (c.total - p.total) = (((c.total : ℤ) - p.total : ℤ) : ℚ) := by
      rw [toDouble_of_le hf.le]; push_cast [Nat.cast_sub hp.le]; ring
    have hId : toDouble (c.idleSum - p.idleSum) = (((c.idleSum : ℤ) - p.idleSum : ℤ) : ℚ) := by
      rw [toDouble_of_le hif.le]; push_cast [Nat.cast_sub hi]; ring
    have hsub : roundDouble ((((c.total : ℤ) - p.total : ℤ) : ℚ)
        - (((c.idleSum : ℤ) - p.idleSum : ℤ) : ℚ))
        = (((c.total : ℤ) - p.total - ((c.idleSum : ℤ) - p.idleSum) : ℤ) : ℚ) := by
      rw [← Int.cast_sub]
      apply roundDouble_intCast
      rw [abs_le]
      constructor <;> omega
    rw [usage_between_eq, hT, hI, if_neg (not_le.mpr hTpos), hTd, hId, hsub]
  refine ⟨key prev curr hpos hfit hidle hifit, ?_, ?_⟩
  · rw [key prev curr hpos hfit hidle hifit]
    have hspec : usage_percent_spec prev curr
        = (((curr.total : ℤ) - prev.total - ((curr.idleSum : ℤ) - prev.idleSum) : ℤ) : ℚ)
          / (((curr.total : ℤ) - prev.total : ℤ) : ℚ) * 100 := by
      simp only [usage_percent_spec]
      rw [if_neg (by omega)]
    rw [hspec]
    exact two_roundings_error _
  · rw [key _ _ (by decide) (by decide) (by decide) (by decide)]
    have e1 : roundDouble (1 / 2 : ℚ) = 1 / 2 := by
      have := roundDouble_exact 1 (-1) (by norm_num)
      norm_num at this
      exact this
    have e2 : roundDouble (50 : ℚ) = 50 := by simpa using roundDouble_intCast 50 (by norm_num)
    norm_num [CpuTimes.total, CpuTimes.idleSum, CpuTimes.activeSum, e1, e2]

theorem usage_between_formula_witness :
    ({ user := 7, idle := 9 } : CpuTimes).total < ({ user := 8, idle := 11 } : CpuTimes).total ∧
    abs (usage_between { user := 7, idle := 9 } { user := 8, idle := 11 }
        - usage_percent_spec { user := 7, idle := 9 } { user := 8, idle := 11 })
      ≤ abs (usage_percent_spec { user := 7, idle := 9 } { user := 8, idle := 11 }) / 2 ^ 51 :=
  ⟨by decide,
    (usage_between_formula _ _ (by decide) (by decide) (by decide) (by decide)).2.1⟩

/-! ## Colour bands -/

/-- C10: `color_for_usage` returns green iff `u < 30`, yellow iff `30 <= u < 70`, red iff
`u >= 70`; in particular 30 is yellow and 70 is red. -/
theorem color_for_usage_bands (u : ℚ) :
    (color_for_usage u = GREEN ↔ u < 30) ∧
    (color_for_usage u = YELLOW ↔ 30 ≤ u ∧ u < 70) ∧
    (color_for_usage u = RED ↔ 70 ≤ u) ∧
    color_for_usage 30 = YELLOW ∧ color_for_usage 70 = RED ∧
    GREEN ≠ YELLOW ∧ YELLOW ≠ RED ∧ GREEN ≠ RED := by
  have gy : GREEN ≠ YELLOW := by decide
  have yr : YELLOW ≠ RED := by decide
  have gr : GREEN ≠ RED := by decide
  refine ⟨?_, ?_, ?_, ?_, ?_, gy, yr, gr⟩
  · unfold color_for_usage
    split_ifs with h1 h2
    · simp [h1]
    · simp [h1, gy.symm]
    · simp [h1, gr.symm]
  · unfold color_for_usage
    split_ifs with h1 h2
    · simp [gy, not_le.mpr h1]
    · simp [h2, not_lt.mp h1]
    · simp [yr.symm, h2]
  · unfold color_for_usage
    split_ifs with h1 h2
    · simp [gr]; linarith
    · simp [yr, h2]
    · simp [not_lt.mp h2]
  · norm_num [color_for_usage]
  · norm_num [color_for_usage]

/-! ## Argument parsing -/

/-- A string that `std::stoi` converts is none of the option names of `main`. -/
theorem not_option_of_stoi {v : String} {n : Int} (h : stoi v = .value n) :
    v ≠ "--json" ∧ v ≠ "i" ∧ v ≠ "--interval" ∧ v ≠ "-n" ∧ v ≠ "--count" ∧ v ≠ "-h" ∧
      v ≠ "--help" := by
  have key : ∀ s ∈ ["--json", "i", "--interval", "-n", "--count", "-h", "--help"],
      stoi s = .invalid_argument := by decide
  refine ⟨?_, ?_, ?_, ?_, ?_, ?_, ?_⟩ <;> intro hv <;>
    · have e := key v (by simp [hv])
      rw [e] at h
      cases h

theorem parse_args_json (argv0 : String) (opt : Options) (rest : List String) :
    parse_args argv0 opt ("--json" :: rest)
      = parse_args argv0 { opt with json_mode := true } rest := by
  cases rest <;> simp [parse_args]

/-- An argument that is no option name ends the parse with status 1 and a diagnostic. -/
theorem parse_args_unknown (argv0 : String) (opt : Options) (arg : String) (rest : List String)
    (h1 : arg ≠ "--json") (h2 : ¬ (arg = "i" ∨ arg = "--interval"))
    (h3 : ¬ (arg = "-n" ∨ arg = "--count")) (h4 : ¬ (arg = "-h" ∨ arg = "--help")) :
    parse_args argv0 opt (arg :: rest)
      = .exit 1 [.cerr ("Unknown option: " ++ arg ++ "\n"), .cout "Use -h or --help for usage.\n"] := by
  cases rest <;> simp only [parse_args, if_neg h1, if_neg h2, if_neg h3, if_neg h4]

/-- Parsing a list whose front part is accepted on its own continues with the rest. -/
theorem parse_args_append (argv0 : String) (suffix : List String) :
    ∀ (n : ℕ) (front : List String) (opt opt2 : Options), front.length ≤ n →
      parse_args argv0 opt front = .proceed opt2 →
      parse_args argv0 opt (front ++ suffix) = parse_args argv0 opt2 suffix := by
  intro n
  induction n with
  | zero =>
    intro front opt opt2 hlen h
    have : front = [] := List.length_eq_zero.mp (by omega)
    subst this
    simp only [parse_args] at h
    cases h
    rfl
  | succ n ih =>
    intro front opt opt2 hlen h
    cases front with
    | nil =>
      simp only [parse_args] at h
      cases h
      rfl
    | cons arg rest =>
      simp only [List.length_cons] at hlen
      by_cases h1 : arg = "--json"
      · subst h1
        rw [parse_args_json] at h
        rw [List.cons_append, parse_args_json]
        exact ih rest _ _ (by omega) h
      · cases rest with
        | nil =>
          exfalso
          simp only [parse_args, if_neg h1] at h
          split_ifs at h
        | cons v rest2 =>
          simp only [List.length_cons] at hlen
          simp only [List.cons_append]
          rw [parse_args] at h ⊢
          simp only [if_neg h1] at h ⊢
          by_cases h2 : arg = "i" ∨ arg = "--interval"
          · simp only [if_pos h2] at h ⊢
            cases hs : stoi v with
            | value k =>
              simp only [hs] at h ⊢
              by_cases hk : k ≤ 0
              · simp [hk] at h
              · simp only [if_neg hk] at h ⊢
                have := ih (v :: rest2) _ _ (by simp only [List.length_cons]; omega) h
                simpa using this
            | invalid_argument => simp [hs] at h
            | out_of_range => simp [hs] at h
          · simp only [if_neg h2] at h ⊢
            by_cases h3 : arg = "-n" ∨ arg = "--count"
            · simp only [if_pos h3] at h ⊢
              cases hs : stoi v with
              | value k =>
                simp only [hs] at h ⊢
                by_cases hk : k ≤ 0
                · simp [hk] at h
                · simp only [if_neg hk] at h ⊢
                  exact ih rest2 _ _ (by omega) h
              | invalid_argument => simp [hs] at h
              | out_of_range => simp [hs] at h
            · simp only [if_neg h3] at h ⊢
              split_ifs at h
/-- A `return` inside the argument loop is the exit status of the process. -/
theorem main_of_exit (argv0 : String) (args : List String) (env : Env) (fuel : ℕ)
    {code : Int} {out : List Event} (h : parse_args argv0 {} args = .exit code out) :
    main argv0 args env fuel = .exited code out := by
  simp only [main, h]

/-- C5 (code at the failing inputs): neither form of the interval flag is accepted.  The
short form is compared with the string `i`, so `-i` is an unknown option; the long form
reads `argv[i + 1]` without advancing `i`, so the value itself is parsed as the next
option and rejected.  For every value `v` the parse of `--interval v` ends before the
loop is started, and `--interval 500` exits with status 1. -/
theorem interval_flag_not_accepted (argv0 v : String) (env : Env) (fuel : ℕ) :
    main argv0 ["-i", v] env fuel
      = .exited 1 [.cerr "Unknown option: -i\n", .cout "Use -h or --help for usage.\n"] ∧
    (∀ opt : Options, parse_args argv0 {} ["--interval", v] ≠ .proceed opt) ∧
    stoi "500" = .value 500 ∧
    main argv0 ["--interval", "500"] env fuel
      = .exited 1 [.cerr "Unknown option: 500\n", .cout "Use -h or --help for usage.\n"] := by
  refine ⟨?_, ?_, by decide, ?_⟩
  · have h : parse_args argv0 {} ["-i", v]
        = .exit 1 [.cerr "Unknown option: -i\n", .cout "Use -h or --help for usage.\n"] :=
      parse_args_unknown argv0 {} "-i" [v] (by decide) (by decide) (by decide) (by decide)
    exact main_of_exit argv0 _ env fuel h
  · intro opt h
    rw [parse_args] at h
    simp only [if_neg (show ¬ ("--interval" = "--json") by decide),
      if_pos (show "--interval" = "i" ∨ "--interval" = "--interval" by decide)] at h
    cases hs : stoi v with
    | value k =>
      simp only [hs] at h
      by_cases hk : k ≤ 0
      · simp [hk] at h
      · simp only [if_neg hk] at h
        obtain ⟨n1, n2, n3, n4, n5, n6, n7⟩ := not_option_of_stoi hs
        rw [parse_args_unknown argv0 _ v [] n1 (by tauto) (by tauto) (by tauto)] at h
        cases h
    | invalid_argument => simp [hs] at h
    | out_of_range => simp [hs] at h
  · have h : parse_args argv0 {} ["--interval", "500"]
        = .exit 1 [.cerr "Unknown option: 500\n", .cout "Use -h or --help for usage.\n"] := by
      have hs : stoi "500" = .value 500 := by decide
      rw [parse_args, if_neg (show ¬ ("--interval" = "--json") by decide),
        if_pos (show "--interval" = "i" ∨ "--interval" = "--interval" by decide)]
      simp only [hs]
      rw [if_neg (show ¬ ((500 : Int) ≤ 0) by decide)]
      exact parse_args_unknown argv0 _ "500" [] (by decide) (by decide) (by decide) (by decide)
    exact main_of_exit argv0 _ env fuel h

/-- The parse at an interval flag with value 0 or at a count flag with a negative value. -/
theorem parse_args_at_bad_value (argv0 : String) (opt : Options) (flag v : String)
    (rest : List String)
    (hv : ((flag = "-i" ∨ flag = "i" ∨ flag = "--interval") ∧ stoi v = .value 0) ∨
      ((flag = "-n" ∨ flag = "--count") ∧ ∃ n : Int, n < 0 ∧ stoi v = .value n)) :
    parse_args argv0 opt (flag :: v :: rest)
        = .exit 1 [.cerr "Unknown option: -i\n", .cout "Use -h or --help for usage.\n"] ∨
    parse_args argv0 opt (flag :: v :: rest) = .exit 1 [.cerr "interval must be >0ms\n"] ∨
    parse_args argv0 opt (flag :: v :: rest) = .exit 1 [.cerr "count must be > 0\n"] := by
  rcases hv with ⟨hf, hs⟩ | ⟨hf, n, hn, hs⟩
  · rcases hf with hf | hf
    · left
      subst hf
      exact parse_args_unknown argv0 opt "-i" _ (by decide) (by decide) (by decide) (by decide)
    · right; left
      have h1 : flag ≠ "--json" := by rcases hf with hf | hf <;> subst hf <;> decide
      rw [parse_args]
      simp only [if_neg h1, if_pos hf, hs]
      rfl
  · right; right
    have h1 : flag ≠ "--json" := by rcases hf with hf | hf <;> subst hf <;> decide
    have h2 : ¬ (flag = "i" ∨ flag = "--interval") := by
      rcases hf with hf | hf <;> subst hf <;> decide
    rw [parse_args]
    simp only [if_neg h1, if_neg h2, if_pos hf, hs]
    rw [if_pos hn.le]

/-- The option names convert to no number. -/
theorem stoi_flag {flag : String}
    (hf : flag = "-i" ∨ flag = "i" ∨ flag = "--interval" ∨ flag = "-n" ∨ flag = "--count") :
    stoi flag = .invalid_argument := by
  have key : ∀ s ∈ ["-i", "i", "--interval", "-n", "--count"],
      stoi s = .invalid_argument := by decide
  exact key flag (by rcases hf with h | h | h | h | h <;> simp [h])

/-- Wherever an interval flag with value 0 or a count flag with a negative value stands in
the argument list, the parse does not run to the end. -/
theorem parse_args_never_proceeds (argv0 : String) (flag v : String) (rest : List String)
    (hv : ((flag = "-i" ∨ flag = "i" ∨ flag = "--interval") ∧ stoi v = .value 0) ∨
      ((flag = "-n" ∨ flag = "--count") ∧ ∃ n : Int, n < 0 ∧ stoi v = .value n)) :
    ∀ (n : ℕ) (front : List String) (opt opt2 : Options), front.length ≤ n →
      parse_args argv0 opt (front ++ flag :: v :: rest) ≠ .proceed opt2 := by
  have hflag : stoi flag = .invalid_argument :=
    stoi_flag (by rcases hv with ⟨h | h | h, -⟩ | ⟨h | h, -⟩ <;> simp [h])
  have base : ∀ opt opt2 : Options, parse_args argv0 opt (flag :: v :: rest) ≠ .proceed opt2 := by
    intro opt opt2 h
    rcases parse_args_at_bad_value argv0 opt flag v rest hv with e | e | e <;>
      · rw [e] at h
        cases h
  intro n
  induction n with
  | zero =>
    intro front opt opt2 hlen
    have : front = [] := List.length_eq_zero.mp (by omega)
    subst this
    exact base opt opt2
  | succ n ih =>
    intro front opt opt2 hlen h
    cases front with
    | nil => exact base opt opt2 h
    | cons arg front2 =>
      simp only [List.length_cons] at hlen
      simp only [List.cons_append] at h
      by_cases h1 : arg = "--json"
      · subst h1
        rw [parse_args_json] at h
        exact ih front2 _ _ (by omega) h
      · obtain ⟨w, tl, hw⟩ : ∃ w tl, front2 ++ flag :: v :: rest = w :: tl := by
          cases front2 with
          | nil => exact ⟨flag, v :: rest, rfl⟩
          | cons b f3 => exact ⟨b, f3 ++ flag :: v :: rest, rfl⟩
        have hwv : ∀ k : Int, stoi w = .value k → ∃ f3, front2 = w :: f3 := by
          intro k hk
          cases front2 with
          | nil =>
            simp only [List.nil_append, List.cons.injEq] at hw
            rw [← hw.1, hflag] at hk
            cases hk
          | cons b f3 =>
            simp only [List.cons_append, List.cons.injEq] at hw
            exact ⟨f3, by rw [hw.1]⟩
        rw [hw, parse_args] at h
        simp only [if_neg h1] at h
        by_cases h2 : arg = "i" ∨ arg = "--interval"
        · simp only [if_pos h2] at h
          cases hs : stoi w with
          | value k =>
            simp only [hs] at h
            by_cases hk : k ≤ 0
            · simp [hk] at h
            · simp only [if_neg hk] at h
              rw [← hw] at h
              exact ih front2 _ _ (by omega) h
          | invalid_argument => simp [hs] at h
          | out_of_range => simp [hs] at h
        · simp only [if_neg h2] at h
          by_cases h3 : arg = "-n" ∨ arg = "--count"
          · simp only [if_pos h3] at h
            cases hs : stoi w with
            | value k =>
              simp only [hs] at h
              by_cases hk : k ≤ 0
              · simp [hk] at h
              · simp only [if_neg hk] at h
                obtain ⟨f3, hf3⟩ := hwv k hs
                subst hf3
                simp only [List.cons_append, List.cons.injEq, true_and] at hw
                rw [← hw] at h
                exact ih f3 _ _ (by simp only [List.length_cons] at hlen; omega) h
            | invalid_argument => simp [hs] at h
            | out_of_range => simp [hs] at h
          · simp only [if_neg h3] at h
            split_ifs at h

/-- C6 (as stated, refuted): an argument list can give the interval flag the value 0 and
still end with status 0, when a help flag stands before it; and a negative count outside
the range of `int` makes `std::stoi` throw, so `main` is terminated instead of returning 1. -/
theorem invalid_value_counterexample :
    stoi "0" = .value 0 ∧
    main "cpumon" ["--help", "--interval", "0"] ⟨fun _ => .ok {}, fun _ => false, fun _ => ""⟩ 1
      = .exited 0 [.cout ("Usage: cpumon [options]\nOptions:\n"
          ++ "  --json        Output JSON lines (ts, cpu, usage)\n"
          ++ "  -h, --help    Show this help message\n")] ∧
    stoi "-99999999999" = .out_of_range ∧
    main "cpumon" ["-n", "-99999999999"] ⟨fun _ => .ok {}, fun _ => false, fun _ => ""⟩ 1
      = .crashed [] := by
  refine ⟨by decide, ?_, by decide, ?_⟩
  · have h : parse_args "cpumon" {} ["--help", "--interval", "0"]
        = .exit 0 [.cout ("Usage: cpumon [options]\nOptions:\n"
          ++ "  --json        Output JSON lines (ts, cpu, usage)\n"
          ++ "  -h, --help    Show this help message\n")] := by decide
    exact main_of_exit _ _ _ _ h
  · have h : parse_args "cpumon" {} ["-n", "-99999999999"] = .uncaught .out_of_range := by decide
    simp only [main, h]

/-- C6 (amended): an interval flag whose value converts to 0, or a count flag whose value
converts to a negative `int`, never lets `main` start the sampling loop, wherever it
stands in the argument list; and when the arguments before it are accepted options,
`main` writes a diagnostic to the error stream and returns exit status 1, with no read of
the counter source, no sleep and no record. -/
theorem invalid_value_exits (argv0 : String) (front rest : List String) (flag v : String)
    (env : Env) (fuel : ℕ)
    (hv : ((flag = "-i" ∨ flag = "i" ∨ flag = "--interval") ∧ stoi v = .value 0) ∨
      ((flag = "-n" ∨ flag = "--count") ∧ ∃ n : Int, n < 0 ∧ stoi v = .value n)) :
    (∀ opt : Options, parse_args argv0 {} (front ++ flag :: v :: rest) ≠ .proceed opt) ∧
    (∀ opt : Options, parse_args argv0 {} front = .proceed opt →
      ∃ out, main argv0 (front ++ flag :: v :: rest) env fuel = .exited 1 out ∧
        (∃ e ∈ out, e.isCerr = true) ∧
        (∀ e ∈ out, e.isRead = false ∧ e.isRecord = false ∧ e.isSleep = false)) := by
  constructor
  · intro opt
    exact parse_args_never_proceeds argv0 flag v rest hv front.length front {} opt le_rfl
  · intro opt hfront
    have happ := parse_args_append argv0 (flag :: v :: rest) front.length front {} opt le_rfl hfront
    rcases parse_args_at_bad_value argv0 opt flag v rest hv with e | e | e <;>
      · rw [e] at happ
        exact ⟨_, main_of_exit argv0 _ env fuel happ, by decide, by decide⟩

theorem invalid_value_exits_witness :
    parse_args "cpumon" {} ["--json", "-n", "3"]
      = .proceed { json_mode := true, max_samples := 3 } ∧
    stoi "0" = .value 0 ∧
    ∃ out, main "cpumon" (["--json", "-n", "3"] ++ "--interval" :: "0" :: ["--json"])
        ⟨fun _ => .ok {}, fun _ => false, fun _ => ""⟩ 5 = .exited 1 out ∧
      (∃ e ∈ out, e.isCerr = true) ∧
      (∀ e ∈ out, e.isRead = false ∧ e.isRecord = false ∧ e.isSleep = false) :=
  ⟨by decide, by decide,
    (invalid_value_exits "cpumon" ["--json", "-n", "3"] ["--json"] "--interval" "0"
      ⟨fun _ => .ok {}, fun _ => false, fun _ => ""⟩ 5 (Or.inl ⟨by decide, by decide⟩)).2
      { json_mode := true, max_samples := 3 } (by decide)⟩

/-! ## One tick of the sampling loop -/

/-- The record of one aligned pair of entries. -/
theorem emit_record_of_getElem (opt : Options) (ts : String) (prev curr : Snapshot) (i : ℕ)
    (hp : i < prev.cpus.length) (hc : i < curr.cpus.length) :
    emit_record opt ts prev curr i
      = some (format_record opt ts (curr.cpus[i]).1
          (usage_between (prev.cpus[i]).2 (curr.cpus[i]).2)) := by
  simp only [emit_record, List.getElem?_eq_getElem hp, List.getElem?_eq_getElem hc]
  rfl

/-- The `for` loop never leaves the two vectors and emits the aligned pairs in order. -/
theorem emit_records_eq (opt : Options) (ts : String) (prev curr : Snapshot) :
    ∀ (todo i : ℕ), i + todo ≤ prev.cpus.length → i + todo ≤ curr.cpus.length →
      emit_records opt ts prev curr i todo
        = some ((List.zipWith (fun p c => format_record opt ts c.1 (usage_between p.2 c.2))
            (prev.cpus.drop i) (curr.cpus.drop i)).take todo) := by
  intro todo
  induction todo with
  | zero => intro i _ _; simp [emit_records]
  | succ t ih =>
    intro i hp hc
    have hp2 : i < prev.cpus.length := by omega
    have hc2 : i < curr.cpus.length := by omega
    rw [emit_records, emit_record_of_getElem opt ts prev curr i hp2 hc2,
      ih (i + 1) (by omega) (by omega)]
    rw [List.drop_eq_getElem_cons hp2, List.drop_eq_getElem_cons hc2]
    simp only [List.zipWith_cons_cons, List.take_succ_cons]

theorem tick_output_eq (opt : Options) (ts : String) (line_count : ℕ) (prev curr : Snapshot) :
    tick_output opt ts line_count prev curr
      = some (print_header opt 20 line_count
          ++ List.zipWith (fun p c => format_record opt ts c.1 (usage_between p.2 c.2))
            prev.cpus curr.cpus) := by
  have h := emit_records_eq opt ts prev curr (min prev.cpus.length curr.cpus.length) 0
    (by simp) (by simp)
  simp only [List.drop_zero] at h
  rw [List.take_of_length_le (by simp)] at h
  simp only [tick_output, h]

theorem format_record_kind (opt : Options) (ts name : String) (u : ℚ) :
    (format_record opt ts name u).isRecord = true ∧
    (format_record opt ts name u).isRead = false ∧
    (format_record opt ts name u).isSleep = false ∧
    (format_record opt ts name u).isBye = false ∧
    (format_record opt ts name u).isHeader = false ∧
    (format_record opt ts name u).isCerr = false := by
  unfold format_record
  split_ifs <;> exact ⟨rfl, rfl, rfl, rfl, rfl, rfl⟩

theorem zipWith_records (opt : Options) (ts : String) :
    ∀ (ps cs : List (String × CpuTimes)),
      ∀ e ∈ List.zipWith (fun p c => format_record opt ts c.1 (usage_between p.2 c.2)) ps cs,
        e.isRecord = true ∧ e.isRead = false ∧ e.isSleep = false ∧ e.isBye = false ∧
        e.isHeader = false ∧ e.isCerr = false := by
  intro ps
  induction ps with
  | nil => intro cs e he; simp at he
  | cons p ps ih =>
    intro cs e he
    cases cs with
    | nil => simp at he
    | cons c cs =>
      simp only [List.zipWith_cons_cons, List.mem_cons] at he
      rcases he with he | he
      · rw [he]; exact format_record_kind _ _ _ _
      · exact ih cs e he

theorem print_header_kind (opt : Options) (k line_count : ℕ) :
    ∀ e ∈ print_header opt k line_count,
      e.isHeader = true ∧ e.isRecord = false ∧ e.isRead = false ∧ e.isSleep = false ∧
      e.isBye = false ∧ e.isCerr = false := by
  intro e he
  unfold print_header at he
  split_ifs at he
  · simp at he
  · simp at he
  · simp only [List.mem_singleton] at he
    rw [he]
    exact ⟨rfl, rfl, rfl, rfl, rfl, rfl⟩

/-- The iteration when the loop is not left: the state after a complete tick. -/
theorem iteration_tick (opt : Options) (env : Env) (s : Monitor) (curr : Snapshot)
    (hstop : env.stop_ s.iter = false)
    (hcap : ¬ (0 < opt.max_samples ∧ opt.max_samples.toNat % U64 ≤ s.samples))
    (hread : env.read_proc_stat (s.iter + 1) = .ok curr) :
    iteration opt env s = .next
      { prev_ := curr
        line_count := (s.line_count + 1) % U64
        samples := (s.samples + 1) % U64
        iter := s.iter + 1
        out := s.out ++ [.sleep opt.interval_ms, .read]
          ++ (print_header opt 20 s.line_count
            ++ List.zipWith (fun p c => format_record opt (env.current_timestamp s.iter) c.1
                (usage_between p.2 c.2)) s.prev_.cpus curr.cpus) } := by
  simp only [iteration, hstop, if_neg hcap, hread, tick_output_eq]
  simp

/-! ## The whole run -/

/-- What a complete tick adds to the counts of reads, sleeps and farewells. -/
theorem tick_counts (opt : Options) (ts : String) (line_count : ℕ) (out : List Event)
    (ps cs : List (String × CpuTimes)) :
    List.countP Event.isRead (out ++ [Event.sleep opt.interval_ms, Event.read]
        ++ (print_header opt 20 line_count ++ List.zipWith
          (fun (p c : String × CpuTimes) => format_record opt ts c.1 (usage_between p.2 c.2)) ps cs))
      = List.countP Event.isRead out + 1 ∧
    List.countP Event.isSleep (out ++ [Event.sleep opt.interval_ms, Event.read]
        ++ (print_header opt 20 line_count ++ List.zipWith
          (fun (p c : String × CpuTimes) => format_record opt ts c.1 (usage_between p.2 c.2)) ps cs))
      = List.countP Event.isSleep out + 1 ∧
    List.countP Event.isBye (out ++ [Event.sleep opt.interval_ms, Event.read]
        ++ (print_header opt 20 line_count ++ List.zipWith
          (fun (p c : String × CpuTimes) => format_record opt ts c.1 (usage_between p.2 c.2)) ps cs))
      = List.countP Event.isBye out := by
  have hh := print_header_kind opt 20 line_count
  have hz := zipWith_records opt ts ps cs
  have z1 : ∀ (P : Event → Bool) (l : List Event), (∀ e ∈ l, P e = false) → l.countP P = 0 := by
    intro P l hl
    rw [List.countP_eq_zero]
    intro e he
    simp [hl e he]
  refine ⟨?_, ?_, ?_⟩
  · rw [List.countP_append, List.countP_append, List.countP_append,
      z1 _ _ (fun e he => (hh e he).2.2.1), z1 _ _ (fun e he => (hz e he).2.1)]
    simp [List.countP_cons, Event.isRead]
  · rw [List.countP_append, List.countP_append, List.countP_append,
      z1 _ _ (fun e he => (hh e he).2.2.2.1), z1 _ _ (fun e he => (hz e he).2.2.1)]
    simp [List.countP_cons, Event.isSleep]
  · rw [List.countP_append, List.countP_append, List.countP_append,
      z1 _ _ (fun e he => (hh e he).2.2.2.2.1), z1 _ _ (fun e he => (hz e he).2.2.2.1)]
    simp [List.countP_cons, Event.isBye]

/-- With a cap of `N` samples, successful reads and no stop request, the loop started
after `j` ticks performs the remaining `N - j` ticks and is left. -/
theorem run_loop_capped (opt : Options) (env : Env) (N : ℕ) (hmax : opt.max_samples = (N : ℤ))
    (hN : 0 < N) (hfit : N < U64)
    (hreads : ∀ k, ∃ snap, env.read_proc_stat k = .ok snap)
    (hstop : ∀ k, env.stop_ k = false) :
    ∀ (d j : ℕ) (s : Monitor) (fuel : ℕ), j + d = N → d < fuel → s.iter = j → s.samples = j →
      ∃ s2, run_loop opt env fuel s = .leave s2 ∧
        s2.out.countP Event.isRead = s.out.countP Event.isRead + d ∧
        s2.out.countP Event.isSleep = s.out.countP Event.isSleep + d ∧
        s2.out.countP Event.isBye = s.out.countP Event.isBye := by
  have hcast : opt.max_samples.toNat % U64 = N := by
    rw [hmax, Int.toNat_natCast, Nat.mod_eq_of_lt hfit]
  have hposz : 0 < opt.max_samples := by rw [hmax]; exact_mod_cast hN
  intro d
  induction d with
  | zero =>
    intro j s fuel hj hfuel hiter hsamp
    obtain ⟨f, rfl⟩ : ∃ f, fuel = f + 1 := ⟨fuel - 1, by omega⟩
    have hleave : iteration opt env s = .leave s := by
      have hc : 0 < opt.max_samples ∧ opt.max_samples.toNat % U64 ≤ s.samples := by
        refine ⟨hposz, ?_⟩
        rw [hcast]; omega
      simp only [iteration, hstop, if_pos hc]
      simp
    refine ⟨s, ?_, by simp, by simp, rfl⟩
    simp only [run_loop, hleave]
  | succ d ih =>
    intro j s fuel hj hfuel hiter hsamp
    obtain ⟨f, rfl⟩ : ∃ f, fuel = f + 1 := ⟨fuel - 1, by omega⟩
    obtain ⟨curr, hcurr⟩ := hreads (s.iter + 1)
    have hc : ¬ (0 < opt.max_samples ∧ opt.max_samples.toNat % U64 ≤ s.samples) := by
      rw [hcast]; intro h; omega
    have hnext := iteration_tick opt env s curr (hstop _) hc hcurr
    obtain ⟨c1, c2, c3⟩ := tick_counts opt (env.current_timestamp s.iter) s.line_count s.out
      s.prev_.cpus curr.cpus
    obtain ⟨s2, h1, h2, h3, h4⟩ := ih (j + 1) _ f (by omega) (by omega)
      (show (Monitor.mk curr ((s.line_count + 1) % U64) ((s.samples + 1) % U64) (s.iter + 1)
        (s.out ++ [.sleep opt.interval_ms, .read] ++ (print_header opt 20 s.line_count
          ++ List.zipWith (fun p c => format_record opt (env.current_timestamp s.iter) c.1
            (usage_between p.2 c.2)) s.prev_.cpus curr.cpus))).iter = j + 1 by
        simp only []; omega)
      (show (Monitor.mk curr ((s.line_count + 1) % U64) ((s.samples + 1) % U64) (s.iter + 1)
        (s.out ++ [.sleep opt.interval_ms, .read] ++ (print_header opt 20 s.line_count
          ++ List.zipWith (fun p c => format_record opt (env.current_timestamp s.iter) c.1
            (usage_between p.2 c.2)) s.prev_.cpus curr.cpus))).samples = j + 1 by
        simp only []
        rw [hsamp, Nat.mod_eq_of_lt (by omega)])
    refine ⟨s2, ?_, ?_, ?_, ?_⟩
    · simp only [run_loop, hnext]
      exact h1
    · rw [h2, c1]; omega
    · rw [h3, c2]; omega
    · rw [h4, c3]

theorem initial_counts (opt : Options) (snap : Snapshot) :
    List.countP Event.isRead (initial opt snap).out = 1 ∧
    List.countP Event.isSleep (initial opt snap).out = 0 ∧
    List.countP Event.isBye (initial opt snap).out = 0 := by
  have hh := print_header_kind opt 20 0
  have z1 : List.countP Event.isRead (print_header opt 20 0) = 0 :=
    List.countP_eq_zero.mpr (fun e he => by simp [(hh e he).2.2.1])
  have z2 : List.countP Event.isSleep (print_header opt 20 0) = 0 :=
    List.countP_eq_zero.mpr (fun e he => by simp [(hh e he).2.2.2.1])
  have z3 : List.countP Event.isBye (print_header opt 20 0) = 0 :=
    List.countP_eq_zero.mpr (fun e he => by simp [(hh e he).2.2.2.2.1])
  simp only [initial, List.countP_append, z1, z2, z3]
  simp [List.countP_cons, Event.isRead, Event.isSleep, Event.isBye]

/-- C8: with `max_samples = N > 0`, every read successful and no stop request, `run`
performs exactly `N` ticks (`N` sleeps, `N` reads after the baseline), returns 0, and
writes the farewell line once, as the last line, in text mode and never in JSON mode. -/
theorem run_max_samples (opt : Options) (env : Env) (N : ℕ) (hN : 0 < N) (hint : N < 2 ^ 31)
    (hmax : opt.max_samples = (N : ℤ))
    (hreads : ∀ k, ∃ snap, env.read_proc_stat k = .ok snap)
    (hstop : ∀ k, env.stop_ k = false) (fuel : ℕ) (hfuel : N < fuel) :
    ∃ out, run opt env fuel = .returned 0 out ∧
      out.countP Event.isRead = N + 1 ∧
      out.countP Event.isSleep = N ∧
      out.countP Event.isBye = (if opt.json_mode then 0 else 1) ∧
      (opt.json_mode = false → out.getLast? = some .bye) := by
  obtain ⟨snap, hsnap⟩ := hreads 0
  have hfit : N < U64 := lt_trans hint (by norm_num [U64])
  obtain ⟨s2, h1, h2, h3, h4⟩ := run_loop_capped opt env N hmax hN hfit hreads hstop N 0
    (initial opt snap) fuel (by omega) hfuel rfl rfl
  obtain ⟨i1, i2, i3⟩ := initial_counts opt snap
  have hrun : run opt env fuel
      = .returned 0 (s2.out ++ if opt.json_mode then [] else [.bye]) := by
    simp only [run, hsnap, h1]
  refine ⟨_, hrun, ?_, ?_, ?_, ?_⟩
  · rw [List.countP_append, h2, i1]
    split_ifs <;> simp [List.countP_cons, Event.isRead] <;> omega
  · rw [List.countP_append, h3, i2]
    split_ifs <;> simp [List.countP_cons, Event.isSleep]
  · rw [List.countP_append, h4, i3]
    split_ifs <;> simp [List.countP_cons, Event.isBye]
  · intro hj
    simp [hj]

theorem run_max_samples_witness :
    ∃ out, run { max_samples := 3 }
        ⟨fun _ => .ok ⟨[("cpu", { })]⟩, fun _ => false, fun _ => "t"⟩ 4 = .returned 0 out ∧
      out.countP Event.isRead = 3 + 1 ∧
      out.countP Event.isSleep = 3 ∧
      out.countP Event.isBye = 1 ∧
      out.getLast? = some .bye := by
  obtain ⟨out, h1, h2, h3, h4, h5⟩ := run_max_samples { max_samples := 3 }
    ⟨fun _ => .ok ⟨[("cpu", { })]⟩, fun _ => false, fun _ => "t"⟩ 3 (by decide) (by decide) rfl
    (fun _ => ⟨_, rfl⟩) (fun _ => rfl) 4 (by decide)
  exact ⟨out, h1, h2, h3, h4, h5 rfl⟩

/-- A tick whose read fails writes the diagnostic and leaves the loop: no banner, no record. -/
theorem iteration_read_error (opt : Options) (env : Env) (s : Monitor) (what : String)
    (hstop : env.stop_ s.iter = false)
    (hcap : ¬ (0 < opt.max_samples ∧ opt.max_samples.toNat % U64 ≤ s.samples))
    (hread : env.read_proc_stat (s.iter + 1) = .error what) :
    iteration opt env s = .leave { s with
      out := s.out ++ [.sleep opt.interval_ms, .read] ++ [.cerr ("Error: " ++ what ++ "\n")] } := by
  simp only [iteration, hstop, if_neg hcap, hread]
  simp

/-- An evaluation of the loop either leaves it or completes a tick; it never faults. -/
theorem iteration_cases (opt : Options) (env : Env) (s : Monitor) :
    (∃ s2, iteration opt env s = .leave s2) ∨
    (∃ s2, iteration opt env s = .next s2 ∧ s2.iter = s.iter + 1 ∧
      s2.samples = (s.samples + 1) % U64) := by
  by_cases hstop : env.stop_ s.iter = true
  · left
    exact ⟨s, by simp only [iteration, hstop, if_true]⟩
  · have hstop2 : env.stop_ s.iter = false := by simpa using hstop
    by_cases hcap : 0 < opt.max_samples ∧ opt.max_samples.toNat % U64 ≤ s.samples
    · left
      refine ⟨s, ?_⟩
      simp only [iteration, hstop2, if_pos hcap]
      simp
    · cases hread : env.read_proc_stat (s.iter + 1) with
      | error what =>
        left
        exact ⟨_, iteration_read_error opt env s what hstop2 hcap hread⟩
      | ok curr =>
        right
        exact ⟨_, iteration_tick opt env s curr hstop2 hcap hread, rfl, rfl⟩

/-- A stop request, a reached cap or a failing read makes this evaluation leave the loop. -/
theorem iteration_leaves (opt : Options) (env : Env) (s : Monitor)
    (h : env.stop_ s.iter = true ∨
      (0 < opt.max_samples ∧ opt.max_samples.toNat % U64 ≤ s.samples) ∨
      ∃ what, env.read_proc_stat (s.iter + 1) = .error what) :
    ∃ s2, iteration opt env s = .leave s2 := by
  rcases iteration_cases opt env s with hl | ⟨s2, hn, -, -⟩
  · exact hl
  · exfalso
    unfold iteration at hn
    rcases h with h | h | ⟨what, h⟩
    · simp [h] at hn
    · split_ifs at hn
    · split_ifs at hn
      simp [h] at hn

theorem run_loop_no_fault (opt : Options) (env : Env) :
    ∀ (fuel : ℕ) (s s2 : Monitor), run_loop opt env fuel s ≠ .fault s2 := by
  intro fuel
  induction fuel with
  | zero => intro s s2 h; simp [run_loop] at h
  | succ f ih =>
    intro s s2 h
    rcases iteration_cases opt env s with ⟨s3, hl⟩ | ⟨s3, hn, -, -⟩
    · simp [run_loop, hl] at h
    · simp only [run_loop, hn] at h
      exact ih s3 s2 h

/-- The loop is left at the latest in the evaluation in which a stop request is seen, the
cap is reached or the read fails. -/
theorem run_loop_leaves (opt : Options) (env : Env) (k : ℕ)
    (h : env.stop_ k = true ∨
      (0 < opt.max_samples ∧ opt.max_samples.toNat % U64 ≤ k % U64) ∨
      ∃ what, env.read_proc_stat (k + 1) = .error what) :
    ∀ (d j : ℕ) (s : Monitor), j + d = k → s.iter = j → s.samples = j % U64 →
      ∃ s2, run_loop opt env (d + 1) s = .leave s2 := by
  intro d
  induction d with
  | zero =>
    intro j s hj hiter hsamp
    have hk : s.iter = k := by omega
    obtain ⟨s2, hl⟩ := iteration_leaves opt env s (by
      rw [hk, hsamp, show j = k by omega]; exact h)
    exact ⟨s2, by simp only [run_loop, hl]⟩
  | succ d ih =>
    intro j s hj hiter hsamp
    rcases iteration_cases opt env s with ⟨s3, hl⟩ | ⟨s3, hn, h1, h2⟩
    · exact ⟨s3, by simp only [run_loop, hl]⟩
    · obtain ⟨s2, hs2⟩ := ih (j + 1) s3 (by omega) (by omega) (by
        rw [h2, hsamp]; simp only [U64]; omega)
      refine ⟨s2, ?_⟩
      rw [run_loop]
      simp only [hn]
      exact hs2

/-- C9: `run` returns 1 exactly when the baseline read fails, and then it has emitted
nothing but the diagnostic; a run whose baseline read succeeds returns only 0, never
faults, and does return 0 once a stop request is seen, the cap is reached or a later read
fails; the tick of a failing read writes the diagnostic and no record. -/
theorem run_exit_code (opt : Options) (env : Env) :
    (∀ what, env.read_proc_stat 0 = .error what →
      ∀ fuel, run opt env fuel = .returned 1 [.read, .cerr ("Error: " ++ what ++ "\n")]) ∧
    (∀ fuel code out, run opt env fuel = .returned code out →
      (code = 1 ↔ ∃ what, env.read_proc_stat 0 = .error what) ∧
      (code = 0 ↔ ∃ snap, env.read_proc_stat 0 = .ok snap)) ∧
    (∀ fuel out, run opt env fuel ≠ .fault out) ∧
    (∀ snap, env.read_proc_stat 0 = .ok snap →
      ∀ k, (env.stop_ k = true ∨
          (0 < opt.max_samples ∧ opt.max_samples.toNat % U64 ≤ k % U64) ∨
          ∃ what, env.read_proc_stat (k + 1) = .error what) →
        ∃ out, run opt env (k + 1) = .returned 0 out) ∧
    (∀ (s : Monitor) (what : String), env.stop_ s.iter = false →
      ¬ (0 < opt.max_samples ∧ opt.max_samples.toNat % U64 ≤ s.samples) →
      env.read_proc_stat (s.iter + 1) = .error what →
      iteration opt env s = .leave { s with
        out := s.out ++ [.sleep opt.interval_ms, .read]
          ++ [.cerr ("Error: " ++ what ++ "\n")] }) := by
  refine ⟨?_, ?_, ?_, ?_, ?_⟩
  · intro what h fuel
    simp only [run, h]
  · intro fuel code out h
    cases hread : env.read_proc_stat 0 with
    | error what =>
      simp only [run, hread] at h
      cases h
      simp
    | ok snap =>
      simp only [run, hread] at h
      cases hl : run_loop opt env fuel (initial opt snap) with
      | next s2 => simp [hl] at h
      | fault s2 => simp [hl] at h
      | leave s2 =>
        simp only [hl] at h
        cases h
        simp
  · intro fuel out h
    cases hread : env.read_proc_stat 0 with
    | error what => simp [run, hread] at h
    | ok snap =>
      simp only [run, hread] at h
      cases hl : run_loop opt env fuel (initial opt snap) with
      | next s2 => simp [hl] at h
      | fault s2 => exact run_loop_no_fault opt env fuel _ s2 hl
      | leave s2 => simp [hl] at h
  · intro snap hread k hk
    obtain ⟨s2, hs2⟩ := run_loop_leaves opt env k hk k 0 (initial opt snap) (by omega) rfl rfl
    have hrun : run opt env (k + 1)
        = .returned 0 (s2.out ++ if opt.json_mode then [] else [.bye]) := by
      simp only [run, hread, hs2]
    exact ⟨_, hrun⟩
  · intro s what h1 h2 h3
    exact iteration_read_error opt env s what h1 h2 h3

theorem run_exit_code_witness :
    run {} ⟨fun _ => .error "Failed to open /proc/stat", fun _ => false, fun _ => "t"⟩ 7
        = .returned 1 [.read, .cerr ("Error: " ++ "Failed to open /proc/stat" ++ "\n")] ∧
    ∃ out, run {} ⟨fun k => if k = 0 then .ok ⟨[("cpu", { })]⟩ else .error "Failed to open /proc/stat",
        fun _ => false, fun _ => "t"⟩ (0 + 1) = .returned 0 out :=
  ⟨(run_exit_code {} ⟨fun _ => .error "Failed to open /proc/stat", fun _ => false,
      fun _ => "t"⟩).1 _ rfl 7,
    (run_exit_code {} ⟨fun k => if k = 0 then .ok ⟨[("cpu", { })]⟩
        else .error "Failed to open /proc/stat", fun _ => false, fun _ => "t"⟩).2.2.2.1
      ⟨[("cpu", { })]⟩ rfl 0 (Or.inr (Or.inr ⟨_, rfl⟩))⟩

/-! ## Independence of the guest counters -/

/-- C11: `usage_between` does not read `guest` and `guest_nice`: two pairs of samples that
agree on the eight counted fields give the same result. -/
theorem usage_between_ignores_guest (prev curr prev2 curr2 : CpuTimes)
    (hp : prev2.user = prev.user ∧ prev2.nice = prev.nice ∧ prev2.system = prev.system ∧
      prev2.idle = prev.idle ∧ prev2.iowait = prev.iowait ∧ prev2.irq = prev.irq ∧
      prev2.softirq = prev.softirq ∧ prev2.steal = prev.steal)
    (hc : curr2.user = curr.user ∧ curr2.nice = curr.nice ∧ curr2.system = curr.system ∧
      curr2.idle = curr.idle ∧ curr2.iowait = curr.iowait ∧ curr2.irq = curr.irq ∧
      curr2.softirq = curr.softirq ∧ curr2.steal = curr.steal) :
    usage_between prev2 curr2 = usage_between prev curr := by
  obtain ⟨p1, p2, p3, p4, p5, p6, p7, p8⟩ := hp
  obtain ⟨c1, c2, c3, c4, c5, c6, c7, c8⟩ := hc
  simp only [usage_between, p1, p2, p3, p4, p5, p6, p7, p8, c1, c2, c3, c4, c5, c6, c7, c8]

theorem usage_between_ignores_guest_witness :
    usage_between { user := 3, idle := 4, guest := 7, guest_nice := 9 }
        { user := 8, idle := 5, guest := 1000, guest_nice := 0 }
      = usage_between { user := 3, idle := 4 } { user := 8, idle := 5, guest := 2 } :=
  usage_between_ignores_guest _ _ _ _ (by decide) (by decide)

/-! ## A flag without a value -/

/-- C17 (code at the failing input): an interval flag as the last argument writes
`miss value for--interval` and then, with no `return`, converts `argv[argc]`, the null
pointer that ends the argument vector; the count flag in the same place returns 1. -/
theorem interval_flag_without_value (argv0 : String) (env : Env) (fuel : ℕ) :
    parse_args argv0 {} ["--interval"]
      = .null_value [.cerr "miss value for--interval\n"] ∧
    main argv0 ["--interval"] env fuel = .crashed [.cerr "miss value for--interval\n"] ∧
    main argv0 ["i"] env fuel = .crashed [.cerr "miss value fori\n"] ∧
    main argv0 ["--json", "--interval"] env fuel
      = .crashed [.cerr "miss value for--interval\n"] ∧
    main argv0 ["-n"] env fuel = .exited 1 [.cerr "Missing value for -n\n"] ∧
    main argv0 ["--count"] env fuel = .exited 1 [.cerr "Missing value for --count\n"] := by
  have h1 : parse_args argv0 {} ["--interval"]
      = .null_value [.cerr "miss value for--interval\n"] := by
    simp [parse_args]
  have h2 : parse_args argv0 {} ["i"] = .null_value [.cerr "miss value fori\n"] := by
    simp [parse_args]
  have h3 : parse_args argv0 {} ["--json", "--interval"]
      = .null_value [.cerr "miss value for--interval\n"] := by
    simp [parse_args]
  have h4 : parse_args argv0 {} ["-n"] = .exit 1 [.cerr "Missing value for -n\n"] := by
    simp [parse_args]
  have h5 : parse_args argv0 {} ["--count"] = .exit 1 [.cerr "Missing value for --count\n"] := by
    simp [parse_args]
  refine ⟨h1, ?_, ?_, ?_, main_of_exit argv0 _ env fuel h4, main_of_exit argv0 _ env fuel h5⟩
  · simp only [main, h1]
  · simp only [main, h2]
  · simp only [main, h3]

/-! ## The counter source reader -/

theorem not_digit_of_isspace {c : Char} (h : isspace c = true) : c.isDigit = false := by
  simp only [isspace, Bool.or_eq_true, decide_eq_true_eq] at h
  rcases h with ((((h | h) | h) | h) | h) | h <;> subst h <;> decide

theorem not_isspace_of_digit {c : Char} (h : c.isDigit = true) : isspace c = false := by
  cases hs : isspace c with
  | false => rfl
  | true => rw [not_digit_of_isspace hs] at h; cases h

theorem not_sign_of_digit {c : Char} (h : c.isDigit = true) : c ≠ '-' ∧ c ≠ '+' := by
  constructor <;> intro hc <;> subst hc <;> revert h <;> decide

/-- Splitting a list at the end of a run of characters that satisfy `p`. -/
theorem span_append (p : Char → Bool) (l r : List Char) (hl : ∀ c ∈ l, p c = true)
    (hr : ∀ c, r.head? = some c → p c = false) :
    (l ++ r).dropWhile p = r ∧ (l ++ r).takeWhile p = l := by
  induction l with
  | nil =>
    cases r with
    | nil => simp
    | cons c r2 =>
      have := hr c rfl
      simp [List.dropWhile, List.takeWhile, this]
  | cons a l ih =>
    have ha := hl a (List.mem_cons_self _ _)
    obtain ⟨i1, i2⟩ := ih (fun c hc => hl c (List.mem_cons_of_mem _ hc))
    simp only [List.cons_append, List.dropWhile_cons, List.takeWhile_cons, ha, if_true]
    exact ⟨i1, by rw [i2]⟩

/-- Extraction of one well-formed field: the separator is skipped and the digits are
converted. -/
theorem extract_u64_field (sep ds r : List Char) (old : ℕ)
    (hsep : ∀ c ∈ sep, isspace c = true)
    (hne : ds ≠ []) (hds : ∀ c ∈ ds, c.isDigit = true) (hval : digitsValue ds < U64)
    (hr : ∀ c, r.head? = some c → c.isDigit = false) :
    extract_u64 ⟨sep ++ ds ++ r, false⟩ old = (digitsValue ds, ⟨r, false⟩) := by
  obtain ⟨d, ds2, rfl⟩ := List.exists_cons_of_ne_nil hne
  have hd : d.isDigit = true := hds d (List.mem_cons_self _ _)
  have hbody : (sep ++ (d :: ds2 ++ r)).dropWhile isspace = d :: ds2 ++ r :=
    (span_append isspace sep (d :: ds2 ++ r) hsep (by
      intro c hc
      simp only [List.cons_append, List.head?_cons, Option.some.injEq] at hc
      subst hc
      exact not_isspace_of_digit hd)).1
  obtain ⟨s1, s2⟩ := span_append Char.isDigit (d :: ds2) r hds hr
  obtain ⟨n1, n2⟩ := not_sign_of_digit hd
  have hh : (d :: ds2 ++ r).head? = some d := rfl
  simp only [extract_u64, List.append_assoc, hbody, hh, Option.some.injEq, n1, n2, or_self,
    if_false, s1, s2]
  simp [not_le.mpr hval]
/-- No number can be extracted from the stream: it has failed, or what follows the white
space is neither a digit nor a sign. -/
theorem extract_u64_stop (s : IStream)
    (h : s.fail = true ∨ ∀ c, (s.rest.dropWhile isspace).head? = some c →
      c.isDigit = false ∧ c ≠ '-' ∧ c ≠ '+') :
    (extract_u64 s 0).1 = 0 ∧ (extract_u64 s 0).2.fail = true := by
  by_cases hf : s.fail = true
  · simp [extract_u64, hf]
  · have h2 := h.resolve_left hf
    have hf2 : s.fail = false := by simpa using hf
    cases hb : s.rest.dropWhile isspace with
    | nil => simp [extract_u64, hf2, hb]
    | cons c body =>
      obtain ⟨c1, c2, c3⟩ := h2 c (by rw [hb]; rfl)
      simp [extract_u64, hf2, hb, c1, c2, c3, List.takeWhile]

theorem extract_many_stop : ∀ (n : ℕ) (s : IStream),
    (s.fail = true ∨ ∀ c, (s.rest.dropWhile isspace).head? = some c →
      c.isDigit = false ∧ c ≠ '-' ∧ c ≠ '+') →
    extract_many n s = List.replicate n 0 := by
  intro n
  induction n with
  | zero => intro s _; rfl
  | succ n ih =>
    intro s h
    obtain ⟨h1, h2⟩ := extract_u64_stop s h
    rw [extract_many, h1, ih _ (Or.inl h2)]
    rfl

/-- The fields of a well-formed line are extracted in order; what is left gives zeros. -/
theorem extract_many_fields : ∀ (toks : List (List Char × List Char)) (n : ℕ) (r : List Char),
    (∀ t ∈ toks, t.1 ≠ [] ∧ (∀ c ∈ t.1, isspace c = true) ∧ t.2 ≠ [] ∧
      (∀ c ∈ t.2, c.isDigit = true) ∧ digitsValue t.2 < U64) →
    (∀ c, r.head? = some c → isspace c = true) →
    (∀ c, (r.dropWhile isspace).head? = some c → c.isDigit = false ∧ c ≠ '-' ∧ c ≠ '+') →
    extract_many n ⟨render_fields toks ++ r, false⟩
      = ((toks.map (fun t => digitsValue t.2)).take n)
        ++ List.replicate (n - toks.length) 0 := by
  intro toks
  induction toks with
  | nil =>
    intro n r _ _ hr2
    simp only [render_fields, List.nil_append, List.map_nil, List.take_nil, List.length_nil,
      Nat.sub_zero]
    exact extract_many_stop n _ (Or.inr hr2)
  | cons t ts ih =>
    intro n r hw hr1 hr2
    cases n with
    | zero => simp [extract_many]
    | succ n =>
      obtain ⟨w1, w2, w3, w4, w5⟩ := hw t (List.mem_cons_self _ _)
      have hnext : ∀ c, (render_fields ts ++ r).head? = some c → c.isDigit = false := by
        intro c hc
        cases ts with
        | nil =>
          simp only [render_fields, List.nil_append] at hc
          exact not_digit_of_isspace (hr1 c hc)
        | cons t2 ts2 =>
          obtain ⟨v1, v2, -, -, -⟩ := hw t2 (by simp)
          obtain ⟨a, sep2, hsep⟩ := List.exists_cons_of_ne_nil v1
          simp only [render_fields, hsep, List.cons_append, List.head?_cons,
            Option.some.injEq] at hc
          subst hc
          exact not_digit_of_isspace (v2 a (by rw [hsep]; exact List.mem_cons_self _ _))
      have hx := extract_u64_field t.1 t.2 (render_fields ts ++ r) 0 w2 w3 w4 w5 hnext
      have hshape : render_fields (t :: ts) ++ r = t.1 ++ t.2 ++ (render_fields ts ++ r) := by
        simp [render_fields]
      rw [extract_many, hshape, hx]
      simp only [List.map_cons, List.take_succ_cons, List.length_cons, List.cons_append,
        Nat.add_sub_add_right]
      rw [ih n r (fun t2 h2 => hw t2 (List.mem_cons_of_mem _ h2)) hr1 hr2]

theorem parse_cpu_fields_eq (s : IStream) :
    parse_cpu_fields s = CpuTimes.ofList (extract_many 10 s) := by
  simp [parse_cpu_fields, CpuTimes.ofList, extract_many]

theorem ofList_take_pad (vs : List ℕ) :
    CpuTimes.ofList (vs.take 10 ++ List.replicate (10 - vs.length) 0) = CpuTimes.ofList vs := by
  have key : ∀ i, i < 10 →
      (vs.take 10 ++ List.replicate (10 - vs.length) 0).getD i 0 = vs.getD i 0 := by
    intro i hi
    simp only [List.getD_eq_getElem?_getD]
    by_cases h : i < vs.length
    · rw [List.getElem?_append_left (by simp; omega), List.getElem?_take_of_lt hi]
    · rw [List.getElem?_append_right (by simp; omega)]
      simp only [List.length_take]
      rw [List.getElem?_eq_none (by omega : vs.length ≤ i)]
      by_cases h2 : i - min 10 vs.length < 10 - vs.length
      · rw [List.getElem?_replicate_of_lt h2]; rfl
      · rw [List.getElem?_eq_none (by simp; omega)]
  simp only [CpuTimes.ofList]
  rw [key 0 (by omega), key 1 (by omega), key 2 (by omega), key 3 (by omega), key 4 (by omega),
    key 5 (by omega), key 6 (by omega), key 7 (by omega), key 8 (by omega), key 9 (by omega)]

/-- Extraction of the name: the characters before the first white space. -/
theorem extract_string_name (nm r : List Char) (old : String) (hne : nm ≠ [])
    (hnm : ∀ c ∈ nm, isspace c = false)
    (hr : ∀ c, r.head? = some c → isspace c = true) :
    extract_string ⟨nm ++ r, false⟩ old = (String.mk nm, ⟨r, false⟩) := by
  obtain ⟨a, nm2, rfl⟩ := List.exists_cons_of_ne_nil hne
  have ha : isspace a = false := hnm a (List.mem_cons_self _ _)
  have hbody : (a :: nm2 ++ r).dropWhile isspace = a :: nm2 ++ r := by
    simp [List.dropWhile, ha]
  obtain ⟨s1, s2⟩ := span_append (fun c => !isspace c) (a :: nm2) r
    (fun c hc => by simp [hnm c hc]) (fun c hc => by simp [hr c hc])
  simp only [extract_string, hbody, s1, s2]
  simp

theorem read_lines_eq (lines : List String) :
    read_lines lines = (lines.takeWhile (fun l => starts_with l "cpu")).map parse_line := by
  induction lines with
  | nil => rfl
  | cons l ls ih =>
    cases h : starts_with l "cpu" with
    | false => simp [read_lines, List.takeWhile, h]
    | true => simp [read_lines, List.takeWhile, h, ih]

theorem starts_with_cpu (l : String) :
    starts_with l "cpu" = true ↔ ∃ t, l.toList = 'c' :: 'p' :: 'u' :: t := by
  have hlen : "cpu".length = 3 := by decide
  have hlist : "cpu".toList = ['c', 'p', 'u'] := by decide
  simp only [starts_with, hlen, hlist, decide_eq_true_eq]
  constructor
  · intro h
    refine ⟨l.toList.drop 3, ?_⟩
    have := List.take_append_drop 3 l.toList
    rw [h] at this
    exact this.symm
  · rintro ⟨t, ht⟩
    rw [ht]
    rfl
/-- C12: the snapshot has one entry per line of the longest leading run of lines that
begin with `cpu`, in order, and nothing from the first other line on; for a line made of
a name, then fields each of white space and a decimal number below `2^64`, then nothing
that starts a number, the entry is the name with the numbers assigned in the order
`user, ..., guest_nice`, missing fields 0 and numbers after the tenth unused. -/
theorem read_proc_stat_entries (lines : List String) :
    read_proc_stat (some lines)
      = .ok { cpus := (lines.takeWhile (fun l => starts_with l "cpu")).map parse_line } ∧
    (∀ l : String, starts_with l "cpu" = true ↔ ∃ t, l.toList = 'c' :: 'p' :: 'u' :: t) ∧
    (∀ (line : String) (nm : List Char) (toks : List (List Char × List Char)) (r : List Char),
      nm ≠ [] → (∀ c ∈ nm, isspace c = false) →
      (∀ t ∈ toks, t.1 ≠ [] ∧ (∀ c ∈ t.1, isspace c = true) ∧ t.2 ≠ [] ∧
        (∀ c ∈ t.2, c.isDigit = true) ∧ digitsValue t.2 < U64) →
      (∀ c, r.head? = some c → isspace c = true) →
      (∀ c, (r.dropWhile isspace).head? = some c → c.isDigit = false ∧ c ≠ '-' ∧ c ≠ '+') →
      line.toList = nm ++ (render_fields toks ++ r) →
      parse_line line
        = (String.mk nm, CpuTimes.ofList (toks.map (fun t => digitsValue t.2)))) := by
  refine ⟨?_, starts_with_cpu, ?_⟩
  · simp only [read_proc_stat, read_lines_eq]
  · intro line nm toks r hne hnm hw hr1 hr2 hline
    have hnext : ∀ c, (render_fields toks ++ r).head? = some c → isspace c = true := by
      intro c hc
      cases toks with
      | nil =>
        simp only [render_fields, List.nil_append] at hc
        exact hr1 c hc
      | cons t ts =>
        obtain ⟨v1, v2, -, -, -⟩ := hw t (List.mem_cons_self _ _)
        obtain ⟨a, sep2, hsep⟩ := List.exists_cons_of_ne_nil v1
        simp only [render_fields, hsep, List.cons_append, List.head?_cons,
          Option.some.injEq] at hc
        subst hc
        exact v2 a (by rw [hsep]; exact List.mem_cons_self _ _)
    have hname := extract_string_name nm (render_fields toks ++ r) "" hne hnm hnext
    have hfields := extract_many_fields toks 10 r hw hr1 hr2
    simp only [parse_line, hline, hname, parse_cpu_fields_eq, hfields]
    have := ofList_take_pad (toks.map (fun t => digitsValue t.2))
    simp only [List.length_map] at this
    rw [this]

theorem read_proc_stat_entries_witness :
    read_proc_stat (some ["cpu  7 0 3", "cpu0 7 0 3 9 1 0 0 0 0 0 55", "intr 4", "cpu1 1"])
      = .ok { cpus := [("cpu", { user := 7, system := 3 }),
          ("cpu0", { user := 7, system := 3, idle := 9, iowait := 1 })] } ∧
    parse_line "cpu0 12 5 " = ("cpu0", CpuTimes.ofList [12, 5]) := by
  obtain ⟨h1, -, h3⟩ := read_proc_stat_entries
    ["cpu  7 0 3", "cpu0 7 0 3 9 1 0 0 0 0 0 55", "intr 4", "cpu1 1"]
  refine ⟨h1.trans rfl, ?_⟩
  exact h3 "cpu0 12 5 " ['c', 'p', 'u', '0'] [([' '], ['1', '2']), ([' '], ['5'])] [' ']
    (by decide) (by decide) (by decide) (by decide) (by decide) (by decide)

/-- C15 (as stated, refuted): an empty source and a source whose first line does not
begin with `cpu` are read without error, as a snapshot with no entry. -/
theorem read_proc_stat_empty_counterexample :
    read_proc_stat (some []) = .ok { cpus := [] } ∧
    starts_with "intr 12 0" "cpu" = false ∧
    read_proc_stat (some ["intr 12 0", "cpu 1 2"]) = .ok { cpus := [] } := by
  refine ⟨rfl, by decide, rfl⟩

/-- C15 (amended): `read_proc_stat` fails exactly when the source cannot be opened; for
a source whose first line does not begin with `cpu` (or that has no line) it returns a
snapshot with zero entries, and a tick against such a snapshot emits no record. -/
theorem read_proc_stat_no_cpu_line (lines : List String)
    (h : ∀ l, lines.head? = some l → starts_with l "cpu" = false) :
    read_proc_stat (some lines) = .ok { cpus := [] } ∧
    (∀ file : Option (List String),
      (∃ what, read_proc_stat file = .error what) ↔ file = none) ∧
    (∀ (opt : Options) (ts : String) (line_count : ℕ) (prev : Snapshot),
      tick_output opt ts line_count prev { cpus := [] }
        = some (print_header opt 20 line_count)) := by
  refine ⟨?_, ?_, ?_⟩
  · cases lines with
    | nil => rfl
    | cons l ls =>
      have := h l rfl
      simp [read_proc_stat, read_lines, this]
  · intro file
    cases file with
    | none => simp [read_proc_stat]
    | some ls => simp [read_proc_stat]
  · intro opt ts line_count prev
    rw [tick_output_eq]
    simp

theorem read_proc_stat_no_cpu_line_witness :
    starts_with "intr 12 0" "cpu" = false ∧
    read_proc_stat (some ["intr 12 0", "cpu 1 2"]) = .ok { cpus := [] } :=
  ⟨by decide, (read_proc_stat_no_cpu_line ["intr 12 0", "cpu 1 2"] (by decide)).1⟩

/-! ## Monotone counters -/

theorem usage_of_total_eq (prev curr : CpuTimes) (h : curr.total = prev.total) :
    usage_between prev curr = 0 := by
  have hz : sub64 (curr.total % U64) (prev.total % U64) = 0 :=
    sub64_of_delta (by omega) (by norm_num [U64])
  rw [usage_between_eq, hz, toDouble_zero]
  simp

/-- The code on differences below `2^53`: both conversions and the subtraction are exact. -/
theorem usage_of_small_deltas (p c : CpuTimes) (hp : p.total < c.total)
    (hf : c.total - p.total < 2 ^ 53) (hi : p.idleSum ≤ c.idleSum)
    (hif : c.idleSum - p.idleSum < 2 ^ 53) :
    usage_between p c
      = roundDouble (roundDouble ((((c.total : ℤ) - p.total
          - ((c.idleSum : ℤ) - p.idleSum) : ℤ) : ℚ)
          / (((c.total : ℤ) - p.total : ℤ) : ℚ)) * 100) := by
  obtain ⟨hT, hI⟩ := deltas_of_fit hp.le (lt_trans hf (by norm_num)) hi
    (lt_trans hif (by norm_num))
  have hTpos : 0 < toDouble (c.total - p.total) := toDouble_pos (by omega)
  have hTd : toDouble (c.total - p.total) = (((c.total : ℤ) - p.total : ℤ) : ℚ) := by
    rw [toDouble_of_le hf.le]; push_cast [Nat.cast_sub hp.le]; ring
  have hId : toDouble (c.idleSum - p.idleSum) = (((c.idleSum : ℤ) - p.idleSum : ℤ) : ℚ) := by
    rw [toDouble_of_le hif.le]; push_cast [Nat.cast_sub hi]; ring
  have hsub : roundDouble ((((c.total : ℤ) - p.total : ℤ) : ℚ)
      - (((c.idleSum : ℤ) - p.idleSum : ℤ) : ℚ))
      = (((c.total : ℤ) - p.total - ((c.idleSum : ℤ) - p.idleSum) : ℤ) : ℚ) := by
    rw [← Int.cast_sub]
    apply roundDouble_intCast
    rw [abs_le]
    constructor <;> omega
  rw [usage_between_eq, hT, hI, if_neg (not_le.mpr hTpos), hTd, hId, hsub]

theorem roundHalfEven_tie_even (z : ℤ) (hz : z % 2 = 0) :
    roundHalfEven ((z : ℚ) + 1 / 2) = z := by
  have hfl : ⌊(z : ℚ) + 1 / 2⌋ = z := by
    rw [Int.floor_eq_iff]
    constructor <;> linarith
  simp only [roundHalfEven, hfl]
  norm_num [hz]

/-- The largest double below 1 times 100 rounds to the largest double below 100. -/
theorem roundDouble_below_hundred :
    roundDouble ((1 - 1 / 2 ^ 53) * 100) = 100 - 1 / 2 ^ 46 := by
  have h1 : (2 : ℚ) ^ (6 : ℤ) ≤ |((1 - 1 / 2 ^ 53) * 100 : ℚ)| := by
    rw [abs_of_pos (by norm_num)]; norm_num
  have h2 : |((1 - 1 / 2 ^ 53) * 100 : ℚ)| < 2 ^ ((6 : ℤ) + 1) := by
    rw [abs_of_pos (by norm_num)]; norm_num
  rw [roundDouble_of_binade h1 h2,
    roundHalfEven_eq_of_near (z := 7036874417766399) (by norm_num) (by norm_num)]
  norm_num

theorem roundDouble_below_one : roundDouble (1 - 1 / 2 ^ 53) = 1 - 1 / 2 ^ 53 := by
  have := roundDouble_exact (2 ^ 53 - 1) (-53) (by norm_num)
  have e : (((2 ^ 53 - 1 : ℤ) : ℚ)) * 2 ^ (-53 : ℤ) = 1 - 1 / 2 ^ 53 := by
    rw [zpow_neg]; norm_num
  rwa [e] at this

/-- A quotient at most `1 - 2^-53` gives a result below 100. -/
theorem usage_lt_hundred {x : ℚ} (hx : x ≤ 1 - 1 / 2 ^ 53) :
    roundDouble (roundDouble x * 100) < 100 := by
  have q : roundDouble x ≤ 1 - 1 / 2 ^ 53 := by
    have := roundDouble_mono hx
    rwa [roundDouble_below_one] at this
  have u : roundDouble (roundDouble x * 100) ≤ 100 - 1 / 2 ^ 46 := by
    have := roundDouble_mono (show roundDouble x * 100 ≤ (1 - 1 / 2 ^ 53) * 100 by linarith)
    rwa [roundDouble_below_hundred] at this
  have : (0 : ℚ) < 1 / 2 ^ 46 := by positivity
  linarith

theorem usage_pos {x : ℚ} (hx : 0 < x) : 0 < roundDouble (roundDouble x * 100) :=
  roundDouble_pos (mul_pos (roundDouble_pos hx) (by norm_num))
theorem toDouble_tie : toDouble 9007199254740993 = 9007199254740992 := by
  have h1 : (2 : ℚ) ^ (53 : ℤ) ≤ |(9007199254740993 : ℚ)| := by norm_num
  have h2 : |(9007199254740993 : ℚ)| < 2 ^ ((53 : ℤ) + 1) := by norm_num
  have hm : (9007199254740993 : ℚ) / 2 ^ ((53 : ℤ) - 52)
      = ((4503599627370496 : ℤ) : ℚ) + 1 / 2 := by norm_num
  simp only [toDouble, Nat.cast_ofNat]
  rw [roundDouble_of_binade h1 h2, hm, roundHalfEven_tie_even _ (by decide)]
  norm_num

theorem toDouble_big : toDouble 1152921504606846977 = 1152921504606846976 := by
  have h1 : (2 : ℚ) ^ (60 : ℤ) ≤ |(1152921504606846977 : ℚ)| := by norm_num
  have h2 : |(1152921504606846977 : ℚ)| < 2 ^ ((60 : ℤ) + 1) := by norm_num
  simp only [toDouble, Nat.cast_ofNat]
  rw [roundDouble_of_binade h1 h2,
    roundHalfEven_eq_of_near (z := 4503599627370496) (by norm_num) (by norm_num)]
  norm_num

theorem roundDouble_big_minus_one :
    roundDouble (1152921504606846976 - 1) = 1152921504606846976 := by
  have h1 : (2 : ℚ) ^ (59 : ℤ) ≤ |(1152921504606846976 - 1 : ℚ)| := by norm_num
  have h2 : |(1152921504606846976 - 1 : ℚ)| < 2 ^ ((59 : ℤ) + 1) := by norm_num
  rw [roundDouble_of_binade h1 h2,
    roundHalfEven_eq_of_near (z := 9007199254740992) (by norm_num) (by norm_num)]
  norm_num

/-- C16 (as stated, refuted): with all counters monotone and the sums within 64 bits,
the result is 0 although `user` advanced (first pair: `2^53 + 1` and `2^53` convert to
the same double), and 100 although idle advanced (second pair: `2^60 - 1` rounds to
`2^60`). -/
theorem usage_between_monotone_counterexample :
    (({ user := 1, idle := 2 ^ 53 } : CpuTimes).total ≤ 2 ^ 64 - 1 ∧
      ({ } : CpuTimes).user < ({ user := 1, idle := 2 ^ 53 } : CpuTimes).user ∧
      usage_between { } { user := 1, idle := 2 ^ 53 } = 0) ∧
    (({ user := 2 ^ 60, idle := 1 } : CpuTimes).total ≤ 2 ^ 64 - 1 ∧
      ({ } : CpuTimes).idleSum < ({ user := 2 ^ 60, idle := 1 } : CpuTimes).idleSum ∧
      usage_between { } { user := 2 ^ 60, idle := 1 } = 100) := by
  refine ⟨⟨by decide, by decide, ?_⟩, ⟨by decide, by decide, ?_⟩⟩
  · have hT : sub64 (({ user := 1, idle := 2 ^ 53 } : CpuTimes).total % U64)
        (({ } : CpuTimes).total % U64) = 9007199254740993 := by decide
    have hI : sub64 (({ user := 1, idle := 2 ^ 53 } : CpuTimes).idleSum % U64)
        (({ } : CpuTimes).idleSum % U64) = 9007199254740992 := by decide
    have hId : toDouble 9007199254740992 = 9007199254740992 := by
      simpa using toDouble_of_le (n := 9007199254740992) (by norm_num)
    rw [usage_between_eq, hT, hI, toDouble_tie, hId, if_neg (by norm_num)]
    norm_num [roundDouble_zero]
  · have hT : sub64 (({ user := 2 ^ 60, idle := 1 } : CpuTimes).total % U64)
        (({ } : CpuTimes).total % U64) = 1152921504606846977 := by decide
    have hI : sub64 (({ user := 2 ^ 60, idle := 1 } : CpuTimes).idleSum % U64)
        (({ } : CpuTimes).idleSum % U64) = 1 := by decide
    have hId : toDouble 1 = 1 := by simpa using toDouble_of_le (n := 1) (by norm_num)
    rw [usage_between_eq, hT, hI, toDouble_big, hId, if_neg (by norm_num),
      roundDouble_big_minus_one]
    norm_num [roundDouble_one, roundDouble_hundred]

/-- C16 (amended): with every counted field monotone and both sums at most `2^64 - 1`, the
result lies in `[0, 100]`; it is 0 when no active counter advanced and 100 when some
active counter advanced and idle+iowait did not; and when the total advanced by less
than `2^53` it is 0 only, and 100 only, in these cases. -/
theorem usage_between_monotone (prev curr : CpuTimes)
    (hmono : prev.user ≤ curr.user ∧ prev.nice ≤ curr.nice ∧ prev.system ≤ curr.system ∧
      prev.idle ≤ curr.idle ∧ prev.iowait ≤ curr.iowait ∧ prev.irq ≤ curr.irq ∧
      prev.softirq ≤ curr.softirq ∧ prev.steal ≤ curr.steal)
    (hsum : prev.total ≤ 2 ^ 64 - 1 ∧ curr.total ≤ 2 ^ 64 - 1) :
    (0 ≤ usage_between prev curr ∧ usage_between prev curr ≤ 100) ∧
    ((curr.user = prev.user ∧ curr.nice = prev.nice ∧ curr.system = prev.system ∧
        curr.irq = prev.irq ∧ curr.softirq = prev.softirq ∧ curr.steal = prev.steal) →
      usage_between prev curr = 0) ∧
    (¬ (curr.user = prev.user ∧ curr.nice = prev.nice ∧ curr.system = prev.system ∧
        curr.irq = prev.irq ∧ curr.softirq = prev.softirq ∧ curr.steal = prev.steal) ∧
      curr.idleSum = prev.idleSum → usage_between prev curr = 100) ∧
    (curr.total - prev.total < 2 ^ 53 →
      (usage_between prev curr = 0 ↔
        (curr.user = prev.user ∧ curr.nice = prev.nice ∧ curr.system = prev.system ∧
          curr.irq = prev.irq ∧ curr.softirq = prev.softirq ∧ curr.steal = prev.steal)) ∧
      (usage_between prev curr = 100 ↔
        ¬ (curr.user = prev.user ∧ curr.nice = prev.nice ∧ curr.system = prev.system ∧
          curr.irq = prev.irq ∧ curr.softirq = prev.softirq ∧ curr.steal = prev.steal) ∧
        curr.idleSum = prev.idleSum)) := by
  obtain ⟨m1, m2, m3, m4, m5, m6, m7, m8⟩ := hmono
  have hact : (curr.user = prev.user ∧ curr.nice = prev.nice ∧ curr.system = prev.system ∧
      curr.irq = prev.irq ∧ curr.softirq = prev.softirq ∧ curr.steal = prev.steal)
      ↔ curr.activeSum = prev.activeSum := by
    simp only [CpuTimes.activeSum]
    constructor
    · rintro ⟨a1, a2, a3, a4, a5, a6⟩; omega
    · intro h; refine ⟨?_, ?_, ?_, ?_, ?_, ?_⟩ <;> omega
  have hidle : prev.idleSum ≤ curr.idleSum := by simp only [CpuTimes.idleSum]; omega
  have hactle : prev.activeSum ≤ curr.activeSum := by simp only [CpuTimes.activeSum]; omega
  have htot : prev.total ≤ curr.total := by simp only [CpuTimes.total]; omega
  have htd : curr.total - prev.total
      = (curr.idleSum - prev.idleSum) + (curr.activeSum - prev.activeSum) := by
    simp only [CpuTimes.total]; omega
  rw [hact]
  rcases Nat.eq_or_lt_of_le htot with heq | hlt
  · -- no progress at all
    have hu := usage_of_total_eq prev curr heq.symm
    have ha : curr.activeSum = prev.activeSum := by omega
    rw [hu]
    refine ⟨⟨le_refl _, by norm_num⟩, fun _ => rfl, fun h => absurd ha h.1, fun _ => ?_⟩
    exact ⟨⟨fun _ => ha, fun _ => rfl⟩, ⟨fun h => by norm_num at h, fun h => absurd ha h.1⟩⟩
  · have hfit : curr.total - prev.total < 2 ^ 64 := by omega
    have hile : curr.idleSum - prev.idleSum ≤ curr.total - prev.total := by omega
    obtain ⟨hT, hI⟩ := deltas_of_fit htot hfit hidle (lt_of_le_of_lt hile hfit)
    have hTpos : 0 < toDouble (curr.total - prev.total) := toDouble_pos (by omega)
    have hform : usage_between prev curr
        = roundDouble (roundDouble (roundDouble
            (toDouble (curr.total - prev.total) - toDouble (curr.idleSum - prev.idleSum))
          / toDouble (curr.total - prev.total)) * 100) := by
      rw [usage_between_eq, hT, hI, if_neg (not_le.mpr hTpos)]
    have hzero : curr.activeSum = prev.activeSum → usage_between prev curr = 0 := by
      intro ha
      have : curr.idleSum - prev.idleSum = curr.total - prev.total := by omega
      rw [hform, this]
      simp [roundDouble_zero]
    have hfull : ¬ curr.activeSum = prev.activeSum ∧ curr.idleSum = prev.idleSum →
        usage_between prev curr = 100 := by
      rintro ⟨-, hi⟩
      have : curr.idleSum - prev.idleSum = 0 := by omega
      have hidem : roundDouble (toDouble (curr.total - prev.total))
          = toDouble (curr.total - prev.total) := roundDouble_idem _
      rw [hform, this, toDouble_zero, sub_zero, hidem, div_self hTpos.ne.symm, roundDouble_one,
        one_mul, roundDouble_hundred]
    refine ⟨?_, hzero, hfull, ?_⟩
    · rw [hform]
      exact usage_range_of_le hTpos (roundDouble_idem _) (roundDouble_nonneg (by positivity))
        (toDouble_mono hile)
    · intro hsmall
      have hsm := usage_of_small_deltas prev curr hlt hsmall hidle (lt_of_le_of_lt hile hsmall)
      have hden : (0 : ℚ) < (((curr.total : ℤ) - prev.total : ℤ) : ℚ) := by
        exact_mod_cast (by omega : (0 : ℤ) < (curr.total : ℤ) - prev.total)
      have hdlt : (((curr.total : ℤ) - prev.total : ℤ) : ℚ) < 2 ^ 53 := by
        exact_mod_cast (by omega : (curr.total : ℤ) - prev.total < 2 ^ 53)
      constructor
      · refine ⟨fun hu => ?_, hzero⟩
        by_contra hne
        have hnum : (0 : ℚ) < (((curr.total : ℤ) - prev.total
            - ((curr.idleSum : ℤ) - prev.idleSum) : ℤ) : ℚ) := by
          exact_mod_cast (by omega : (0 : ℤ) < (curr.total : ℤ) - prev.total
            - ((curr.idleSum : ℤ) - prev.idleSum))
        have := usage_pos (div_pos hnum hden)
        rw [← hsm, hu] at this
        exact lt_irrefl _ this
      · refine ⟨fun hu => ?_, hfull⟩
        have hna : ¬ curr.activeSum = prev.activeSum := by
          intro ha
          rw [hzero ha] at hu
          norm_num at hu
        refine ⟨hna, ?_⟩
        by_contra hi
        have hnum : (((curr.total : ℤ) - prev.total
            - ((curr.idleSum : ℤ) - prev.idleSum) : ℤ) : ℚ)
            ≤ (((curr.total : ℤ) - prev.total : ℤ) : ℚ) - 1 := by
          have : (curr.total : ℤ) - prev.total - ((curr.idleSum : ℤ) - prev.idleSum)
              ≤ (curr.total : ℤ) - prev.total - 1 := by omega
          exact_mod_cast this
        have hx : (((curr.total : ℤ) - prev.total
            - ((curr.idleSum : ℤ) - prev.idleSum) : ℤ) : ℚ)
            / (((curr.total : ℤ) - prev.total : ℤ) : ℚ) ≤ 1 - 1 / 2 ^ 53 := by
          rw [div_le_iff₀ hden]
          have h3 : (1 : ℚ) / 2 ^ 53 * (((curr.total : ℤ) - prev.total : ℤ) : ℚ) ≤ 1 := by
            have : (((curr.total : ℤ) - prev.total : ℤ) : ℚ) ≤ 2 ^ 53 := hdlt.le
            calc (1 : ℚ) / 2 ^ 53 * (((curr.total : ℤ) - prev.total : ℤ) : ℚ)
                ≤ 1 / 2 ^ 53 * 2 ^ 53 := mul_le_mul_of_nonneg_left this (by positivity)
              _ = 1 := by norm_num
          linarith
        have := usage_lt_hundred hx
        rw [← hsm, hu] at this
        exact lt_irrefl _ this

theorem usage_between_monotone_witness :
    (0 ≤ usage_between { user := 10, idle := 90 } { user := 15, idle := 90 } ∧
      usage_between { user := 10, idle := 90 } { user := 15, idle := 90 } ≤ 100) ∧
    usage_between { user := 10, idle := 90 } { user := 15, idle := 90 } = 100 := by
  obtain ⟨h1, -, h3, -⟩ := usage_between_monotone { user := 10, idle := 90 }
    { user := 15, idle := 90 } (by decide) (by decide)
  exact ⟨h1, h3 (by decide)⟩

/-! ## The trace of a run -/

/-- A completed tick determines the next state. -/
theorem iteration_next_inv (opt : Options) (env : Env) (s s1 : Monitor)
    (h : iteration opt env s = .next s1) :
    ∃ curr, env.stop_ s.iter = false ∧
      ¬ (0 < opt.max_samples ∧ opt.max_samples.toNat % U64 ≤ s.samples) ∧
      env.read_proc_stat (s.iter + 1) = .ok curr ∧
      s1 = { prev_ := curr
             line_count := (s.line_count + 1) % U64
             samples := (s.samples + 1) % U64
             iter := s.iter + 1
             out := s.out ++ [.sleep opt.interval_ms, .read]
               ++ (print_header opt 20 s.line_count
                 ++ List.zipWith (fun p c => format_record opt (env.current_timestamp s.iter) c.1
                     (usage_between p.2 c.2)) s.prev_.cpus curr.cpus) } := by
  by_cases hstop : env.stop_ s.iter = true
  · simp [iteration, hstop] at h
  · have hstop2 : env.stop_ s.iter = false := by simpa using hstop
    by_cases hcap : 0 < opt.max_samples ∧ opt.max_samples.toNat % U64 ≤ s.samples
    · rw [iteration] at h
      simp only [hstop2, if_pos hcap] at h
      simp at h
    · cases hread : env.read_proc_stat (s.iter + 1) with
      | error what =>
        rw [iteration_read_error opt env s what hstop2 hcap hread] at h
        cases h
      | ok curr =>
        rw [iteration_tick opt env s curr hstop2 hcap hread] at h
        injection h with h
        exact ⟨curr, hstop2, hcap, rfl, h.symm⟩

/-- The way an evaluation leaves the loop: with nothing emitted, or after a failing read
with the sleep, the read and the diagnostic. -/
theorem iteration_leave_inv (opt : Options) (env : Env) (s s1 : Monitor)
    (h : iteration opt env s = .leave s1) :
    s1 = s ∨ ∃ what, s1 = { s with
      out := s.out ++ [.sleep opt.interval_ms, .read] ++ [.cerr ("Error: " ++ what ++ "\n")] } := by
  by_cases hstop : env.stop_ s.iter = true
  · left
    simp only [iteration, hstop, if_true] at h
    injection h with h
    exact h.symm
  · have hstop2 : env.stop_ s.iter = false := by simpa using hstop
    by_cases hcap : 0 < opt.max_samples ∧ opt.max_samples.toNat % U64 ≤ s.samples
    · left
      rw [iteration] at h
      simp only [hstop2, if_pos hcap] at h
      simp only [Bool.false_eq_true, if_false] at h
      injection h with h
      exact h.symm
    · cases hread : env.read_proc_stat (s.iter + 1) with
      | error what =>
        right
        rw [iteration_read_error opt env s what hstop2 hcap hread] at h
        injection h with h
        exact ⟨what, h.symm⟩
      | ok curr =>
        rw [iteration_tick opt env s curr hstop2 hcap hread] at h
        cases h

/-- After `k` complete ticks the state carries the trace of these ticks: each is a sleep,
a read, the banner of its line count and its records. -/
theorem run_loop_trace (opt : Options) (env : Env) :
    ∀ (k : ℕ) (s0 s : Monitor), s0.line_count < U64 → run_loop opt env k s0 = .next s →
      s.iter = s0.iter + k ∧
      ∃ ticks : List (List Event), ticks.length = k ∧ s.out = s0.out ++ ticks.flatten ∧
        ∀ j, j < k → ∃ recs : List Event, (∀ e ∈ recs, e.isRecord = true) ∧
          ticks[j]? = some ([Event.sleep opt.interval_ms, Event.read]
            ++ (print_header opt 20 ((s0.line_count + j) % U64) ++ recs)) := by
  intro k
  induction k with
  | zero =>
    intro s0 s _ h
    simp only [run_loop] at h
    injection h with h
    subst h
    exact ⟨rfl, [], rfl, by simp, fun j hj => absurd hj (by omega)⟩
  | succ k ih =>
    intro s0 s hlc h
    rw [run_loop] at h
    cases hit : iteration opt env s0 with
    | leave s1 => simp [hit] at h
    | fault s1 => simp [hit] at h
    | next s1 =>
      simp only [hit] at h
      obtain ⟨curr, -, -, -, hs1⟩ := iteration_next_inv opt env s0 s1 hit
      have e1 : s1.iter = s0.iter + 1 := by rw [hs1]
      have e2 : s1.line_count = (s0.line_count + 1) % U64 := by rw [hs1]
      have e3 : s1.out = s0.out ++ ([Event.sleep opt.interval_ms, Event.read]
          ++ (print_header opt 20 s0.line_count
            ++ List.zipWith (fun p c => format_record opt (env.current_timestamp s0.iter) c.1
                (usage_between p.2 c.2)) s0.prev_.cpus curr.cpus)) := by
        rw [hs1]; simp
      obtain ⟨i1, ticks, t1, t2, t3⟩ := ih s1 s (by rw [e2]; exact Nat.mod_lt _ (by norm_num [U64])) h
      refine ⟨by omega, ([Event.sleep opt.interval_ms, Event.read]
          ++ (print_header opt 20 s0.line_count
            ++ List.zipWith (fun p c => format_record opt (env.current_timestamp s0.iter) c.1
                (usage_between p.2 c.2)) s0.prev_.cpus curr.cpus)) :: ticks, by simp [t1], ?_, ?_⟩
      · rw [t2, e3]; simp
      · intro j hj
        cases j with
        | zero =>
          refine ⟨List.zipWith (fun p c => format_record opt (env.current_timestamp s0.iter) c.1
            (usage_between p.2 c.2)) s0.prev_.cpus curr.cpus,
            fun e he => (zipWith_records opt _ _ _ e he).1, ?_⟩
          simp [Nat.mod_eq_of_lt hlc]
        | succ j =>
          obtain ⟨recs, r1, r2⟩ := t3 j (by omega)
          refine ⟨recs, r1, ?_⟩
          have hmod : ((s0.line_count + 1) % U64 + j) % U64 = (s0.line_count + (j + 1)) % U64 := by
            simp only [U64]; omega
          simp only [List.getElem?_cons_succ, r2, e2, hmod]

/-- A loop that is left was left by some evaluation, after complete ticks only. -/
theorem run_loop_leave_inv (opt : Options) (env : Env) :
    ∀ (fuel : ℕ) (s0 s1 : Monitor), run_loop opt env fuel s0 = .leave s1 →
      ∃ (k : ℕ) (s : Monitor), k < fuel ∧ run_loop opt env k s0 = .next s ∧
        iteration opt env s = .leave s1 := by
  intro fuel
  induction fuel with
  | zero => intro s0 s1 h; simp [run_loop] at h
  | succ f ih =>
    intro s0 s1 h
    rw [run_loop] at h
    cases hit : iteration opt env s0 with
    | leave s2 =>
      simp only [hit] at h
      exact ⟨0, s0, by omega, rfl, by rw [hit, h]⟩
    | fault s2 => simp [hit] at h
    | next s2 =>
      simp only [hit] at h
      obtain ⟨k, s, hk, h1, h2⟩ := ih s2 s1 h
      refine ⟨k + 1, s, by omega, ?_, h2⟩
      rw [run_loop]
      simp only [hit]
      exact h1

/-- Once an evaluation leaves the loop, more fuel changes nothing. -/
theorem run_loop_of_leave (opt : Options) (env : Env) :
    ∀ (k : ℕ) (s0 s s1 : Monitor), run_loop opt env k s0 = .next s →
      iteration opt env s = .leave s1 → ∀ fuel, k < fuel → run_loop opt env fuel s0 = .leave s1 := by
  intro k
  induction k with
  | zero =>
    intro s0 s s1 h hl fuel hf
    simp only [run_loop] at h
    injection h with h
    subst h
    obtain ⟨f, rfl⟩ : ∃ f, fuel = f + 1 := ⟨fuel - 1, by omega⟩
    rw [run_loop]
    simp only [hl]
  | succ k ih =>
    intro s0 s s1 h hl fuel hf
    obtain ⟨f, rfl⟩ : ∃ f, fuel = f + 1 := ⟨fuel - 1, by omega⟩
    rw [run_loop] at h ⊢
    cases hit : iteration opt env s0 with
    | leave s2 => simp [hit] at h
    | fault s2 => simp [hit] at h
    | next s2 =>
      simp only [hit] at h ⊢
      exact ih s2 s s1 h hl f (by omega)
theorem print_header_eq (opt : Options) (j : ℕ) :
    print_header opt 20 j
      = if opt.json_mode = false ∧ j % 20 = 0 then [Event.header opt.interval_ms] else [] := by
  unfold print_header
  cases hj : opt.json_mode <;> by_cases h : j % 20 = 0 <;> simp [h]

theorem run_one_tick_eval :
    run { max_samples := 1 }
        ⟨fun _ => .ok ⟨[("cpu", { user := 4, idle := 6 })]⟩, fun _ => false, fun _ => "t"⟩ 2
      = .returned 0 [.read, .header 1000, .sleep 1000, .read, .header 1000,
          .text_record "t" "cpu" GREEN 0, .bye] := by
  have hu : usage_between { user := 4, idle := 6 } { user := 4, idle := 6 } = 0 :=
    usage_of_total_eq _ _ rfl
  have hc : color_for_usage 0 = GREEN := by norm_num [color_for_usage]
  simp [run, run_loop, iteration, initial, tick_output, emit_records, emit_record,
    format_record, print_header, hu, hc, U64]

/-- C13: when the stop flag is set at an evaluation of the loop condition, that evaluation
leaves the state as it is, and the run returns 0 with the trace it had, followed only by
the farewell in text mode: no further sleep, read or record.  Every evaluation either
emits nothing, or (read failure) a sleep, a read and the diagnostic, or a complete tick
with `min p c` records; a partial tick does not occur. -/
theorem stop_ends_run (opt : Options) (env : Env) :
    (∀ s : Monitor, env.stop_ s.iter = true → iteration opt env s = .leave s) ∧
    (∀ (snap : Snapshot) (k : ℕ) (s : Monitor) (fuel : ℕ),
      env.read_proc_stat 0 = .ok snap →
      run_loop opt env k (initial opt snap) = .next s →
      env.stop_ k = true → k < fuel →
      run opt env fuel = .returned 0 (s.out ++ if opt.json_mode then [] else [.bye])) ∧
    (∀ s : Monitor,
      iteration opt env s = .leave s ∨
      (∃ what, env.read_proc_stat (s.iter + 1) = .error what ∧
        iteration opt env s = .leave { s with
          out := s.out ++ [.sleep opt.interval_ms, .read]
            ++ [.cerr ("Error: " ++ what ++ "\n")] }) ∨
      (∃ (curr : Snapshot) (recs : List Event),
        env.read_proc_stat (s.iter + 1) = .ok curr ∧
        recs.length = min s.prev_.cpus.length curr.cpus.length ∧
        (∀ e ∈ recs, e.isRecord = true) ∧
        iteration opt env s = .next
          { prev_ := curr
            line_count := (s.line_count + 1) % U64
            samples := (s.samples + 1) % U64
            iter := s.iter + 1
            out := s.out ++ [.sleep opt.interval_ms, .read]
              ++ (print_header opt 20 s.line_count ++ recs) })) := by
  have hstop : ∀ s : Monitor, env.stop_ s.iter = true → iteration opt env s = .leave s := by
    intro s h
    simp only [iteration, h, if_true]
  refine ⟨hstop, ?_, ?_⟩
  · intro snap k s fuel hread hk hs hfuel
    obtain ⟨hiter, -⟩ := run_loop_trace opt env k (initial opt snap) s
      (by norm_num [initial, U64]) hk
    have hiter2 : s.iter = k := by rw [hiter]; simp [initial]
    have hleave := run_loop_of_leave opt env k (initial opt snap) s s hk
      (hstop s (by rw [hiter2]; exact hs)) fuel hfuel
    simp only [run, hread, hleave]
  · intro s
    by_cases hs : env.stop_ s.iter = true
    · exact Or.inl (hstop s hs)
    · have hs2 : env.stop_ s.iter = false := by simpa using hs
      by_cases hcap : 0 < opt.max_samples ∧ opt.max_samples.toNat % U64 ≤ s.samples
      · left
        simp only [iteration, hs2, if_pos hcap]
        simp
      · cases hread : env.read_proc_stat (s.iter + 1) with
        | error what =>
          exact Or.inr (Or.inl ⟨what, rfl, iteration_read_error opt env s what hs2 hcap hread⟩)
        | ok curr =>
          refine Or.inr (Or.inr ⟨curr, _, rfl, ?_, ?_,
            iteration_tick opt env s curr hs2 hcap hread⟩)
          · simp
          · exact fun e he => (zipWith_records opt _ _ _ e he).1

theorem stop_ends_run_witness :
    run { json_mode := true }
        ⟨fun _ => .ok ⟨[("cpu", { user := 4, idle := 6 })]⟩, fun k => decide (k = 1),
          fun _ => "t"⟩ 9
      = .returned 0 [.read, .sleep 1000, .read, .json_record "t" "cpu" 0] := by
  have hu : usage_between { user := 4, idle := 6 } { user := 4, idle := 6 } = 0 :=
    usage_of_total_eq _ _ rfl
  have h := (stop_ends_run { json_mode := true }
    ⟨fun _ => .ok ⟨[("cpu", { user := 4, idle := 6 })]⟩, fun k => decide (k = 1),
      fun _ => "t"⟩).2.1 ⟨[("cpu", { user := 4, idle := 6 })]⟩ 1
    ⟨⟨[("cpu", { user := 4, idle := 6 })]⟩, 1, 1, 1,
      [.read, .sleep 1000, .read, .json_record "t" "cpu" 0]⟩ 9 rfl
    (by simp [run_loop, iteration, initial, tick_output, emit_records, emit_record,
      format_record, print_header, hu, U64]) (by decide) (by decide)
  simpa using h

/-- C14 (as stated, refuted): in text mode a run of one tick prints the banner twice, once
on entering the loop before the first sleep and once in tick 0; and a run stopped before
its first tick still prints it once. -/
theorem banner_counterexample :
    run { max_samples := 1 }
        ⟨fun _ => .ok ⟨[("cpu", { user := 4, idle := 6 })]⟩, fun _ => false, fun _ => "t"⟩ 2
      = .returned 0 [.read, .header 1000, .sleep 1000, .read, .header 1000,
          .text_record "t" "cpu" GREEN 0, .bye] ∧
    run { } ⟨fun _ => .ok ⟨[("cpu", { user := 4, idle := 6 })]⟩, fun _ => true, fun _ => "t"⟩ 1
      = .returned 0 [.read, .header 1000, .bye] := by
  refine ⟨run_one_tick_eval, ?_⟩
  simp [run, run_loop, iteration, initial, print_header]


/-! ## The records of a tick -/

theorem usage_between_half :
    usage_between { user := 100, idle := 100 } { user := 150, idle := 150 } = 50 := by
  rw [usage_of_small_deltas _ _ (by decide) (by decide) (by decide) (by decide)]
  have e1 : roundDouble (1 / 2 : ℚ) = 1 / 2 := by
    have := roundDouble_exact 1 (-1) (by norm_num)
    norm_num at this
    exact this
  have e2 : roundDouble (50 : ℚ) = 50 := by simpa using roundDouble_intCast 50 (by norm_num)
  norm_num [CpuTimes.total, CpuTimes.idleSum, CpuTimes.activeSum, e1, e2]

/-- C7: a tick with `p` retained and `c` fresh entries completes without a fault and
retains the fresh snapshot; it emits exactly `min p c` records, and the `i`-th one is the
JSON record, or in text mode the coloured text record, whose name is the name of the
`i`-th fresh entry and whose usage is `usage_between` of the `i`-th retained and the
`i`-th fresh counters, stamped with the time of the tick. -/
theorem tick_emits_min_records (opt : Options) (env : Env) (s : Monitor) (curr : Snapshot)
    (hstop : env.stop_ s.iter = false)
    (hcap : ¬ (0 < opt.max_samples ∧ opt.max_samples.toNat % U64 ≤ s.samples))
    (hread : env.read_proc_stat (s.iter + 1) = .ok curr) :
    ∃ (s2 : Monitor) (recs : List Event),
      iteration opt env s = .next s2 ∧
      s2.prev_ = curr ∧
      s2.out = s.out ++ [.sleep opt.interval_ms, .read]
        ++ (print_header opt 20 s.line_count ++ recs) ∧
      recs.length = min s.prev_.cpus.length curr.cpus.length ∧
      (∀ e ∈ recs, e.isRecord = true) ∧
      (([Event.sleep opt.interval_ms, Event.read]
          ++ (print_header opt 20 s.line_count ++ recs)).countP Event.isRecord
        = min s.prev_.cpus.length curr.cpus.length) ∧
      (∀ (i : ℕ) (a b : String × CpuTimes), s.prev_.cpus[i]? = some a → curr.cpus[i]? = some b →
        recs[i]? = some
          (if opt.json_mode = true then
            Event.json_record (env.current_timestamp s.iter) b.1 (usage_between a.2 b.2)
          else
            Event.text_record (env.current_timestamp s.iter) b.1
              (if usage_between a.2 b.2 < 30 then GREEN
                else if usage_between a.2 b.2 < 70 then YELLOW else RED)
              (usage_between a.2 b.2))) := by
  refine ⟨_, _, iteration_tick opt env s curr hstop hcap hread, rfl, rfl, ?_, ?_, ?_, ?_⟩
  · simp
  · intro e he
    exact (zipWith_records opt _ _ _ e he).1
  · have h1 : (print_header opt 20 s.line_count).countP Event.isRecord = 0 := by
      rw [List.countP_eq_zero]
      intro e he
      simp [(print_header_kind opt 20 s.line_count e he).2.1]
    have h2 : ∀ l : List Event, (∀ e ∈ l, e.isRecord = true) → l.countP Event.isRecord = l.length := by
      intro l hl
      rw [List.countP_eq_length]
      exact hl
    rw [List.countP_append, List.countP_append, h1,
      h2 _ (fun e he => (zipWith_records opt _ _ _ e he).1)]
    simp [List.countP_cons, Event.isRecord]
  · intro i a b ha hb
    simp only [List.getElem?_zipWith, ha, hb, format_record, color_for_usage]

theorem tick_emits_min_records_witness :
    ∃ (s2 : Monitor),
      iteration {}
          ⟨fun _ => .ok ⟨[("cpu", { user := 150, idle := 150 })]⟩, fun _ => false, fun _ => "t"⟩
          ⟨⟨[("cpu", { user := 100, idle := 100 }), ("cpu0", { user := 7 })]⟩, 0, 0, 0, [.read]⟩
        = .next s2 ∧
      s2.prev_ = ⟨[("cpu", { user := 150, idle := 150 })]⟩ ∧
      s2.out = [.read, .sleep 1000, .read, .header 1000, .text_record "t" "cpu" YELLOW 50] := by
  obtain ⟨s2, recs, h1, h2, h3, h4, -, -, h7⟩ :=
    tick_emits_min_records {}
      ⟨fun _ => .ok ⟨[("cpu", { user := 150, idle := 150 })]⟩, fun _ => false, fun _ => "t"⟩
      ⟨⟨[("cpu", { user := 100, idle := 100 }), ("cpu0", { user := 7 })]⟩, 0, 0, 0, [.read]⟩
      ⟨[("cpu", { user := 150, idle := 150 })]⟩ rfl (by decide) rfl
  have h0 := h7 0 ("cpu", { user := 100, idle := 100 }) ("cpu", { user := 150, idle := 150 })
    rfl rfl
  simp only [usage_between_half] at h0
  norm_num at h0
  have hlen : recs.length = 1 := h4
  have hrecs : recs = [.text_record "t" "cpu" YELLOW 50] := by
    match recs, hlen, h0 with
    | [r], _, h0 =>
      simp only [List.getElem?_cons_zero, Option.some.injEq] at h0
      rw [h0]
  refine ⟨s2, h1, h2, ?_⟩
  rw [h3, hrecs]
  simp [print_header]

/-! ## The banner -/

/-- While no stop is seen, the cap is not reached and the reads succeed, the loop keeps
completing ticks. -/
theorem run_loop_progress (opt : Options) (env : Env) :
    ∀ (k : ℕ) (s0 : Monitor), s0.samples = s0.iter % U64 →
      (∀ j, j < k → env.stop_ (s0.iter + j) = false ∧
        ¬ (0 < opt.max_samples ∧ opt.max_samples.toNat % U64 ≤ (s0.iter + j) % U64) ∧
        ∃ c, env.read_proc_stat (s0.iter + j + 1) = .ok c) →
      ∃ s, run_loop opt env k s0 = .next s ∧ s.samples = s.iter % U64 := by
  intro k
  induction k with
  | zero => intro s0 h0 _; exact ⟨s0, rfl, h0⟩
  | succ k ih =>
    intro s0 h0 hp
    obtain ⟨p1, p2, c, p3⟩ := hp 0 (by omega)
    simp only [Nat.add_zero] at p1 p2 p3
    have hnext := iteration_tick opt env s0 c p1 (by rw [h0]; exact p2) p3
    obtain ⟨s, hs, hsamp⟩ := ih
      { prev_ := c
        line_count := (s0.line_count + 1) % U64
        samples := (s0.samples + 1) % U64
        iter := s0.iter + 1
        out := s0.out ++ [.sleep opt.interval_ms, .read]
          ++ (print_header opt 20 s0.line_count
            ++ List.zipWith (fun p c => format_record opt (env.current_timestamp s0.iter) c.1
                (usage_between p.2 c.2)) s0.prev_.cpus c.cpus) }
      (by simp only [h0, U64]; omega)
      (by
        intro j hj
        have := hp (j + 1) (by omega)
        simpa [Nat.add_assoc, Nat.add_comm 1 j] using this)
    refine ⟨s, ?_, hsamp⟩
    rw [run_loop]
    simp only [hnext]
    exact hs

/-- C14 (amended): in a run whose first `k` evaluations of the loop complete a tick, the
trace after these ticks is the baseline read, then in text mode one banner, then the `k`
ticks; tick `j` (below `2^64`) is a sleep, a read, in text mode a banner exactly when `j`
is a multiple of 20, and then its records.  With fuel `k` the run is at this point, and
if evaluation `k` sees a stop, the cap or a failing read the run returns 0 with this
trace and a tail without banner or record.  In JSON mode the trace has no banner. -/
theorem banner_positions (opt : Options) (env : Env) (snap : Snapshot) (k : ℕ)
    (hread : env.read_proc_stat 0 = .ok snap)
    (hticks : ∀ j, j < k → env.stop_ j = false ∧
      ¬ (0 < opt.max_samples ∧ opt.max_samples.toNat % U64 ≤ j % U64) ∧
      ∃ c, env.read_proc_stat (j + 1) = .ok c) :
    ∃ ticks : List (List Event), ticks.length = k ∧
      (∀ j, j < k → j < U64 → ∃ recs : List Event, (∀ e ∈ recs, e.isRecord = true) ∧
        ticks[j]? = some ([Event.sleep opt.interval_ms, Event.read]
          ++ ((if opt.json_mode = false ∧ j % 20 = 0 then [Event.header opt.interval_ms] else [])
            ++ recs))) ∧
      run opt env k = .running ([Event.read]
        ++ (if opt.json_mode = true then [] else [Event.header opt.interval_ms])
        ++ ticks.flatten) ∧
      ((env.stop_ k = true ∨
          (0 < opt.max_samples ∧ opt.max_samples.toNat % U64 ≤ k % U64) ∨
          ∃ what, env.read_proc_stat (k + 1) = .error what) →
        ∃ tail : List Event, (∀ e ∈ tail, e.isHeader = false ∧ e.isRecord = false) ∧
          ∀ fuel, k < fuel → run opt env fuel = .returned 0 ([Event.read]
            ++ (if opt.json_mode = true then [] else [Event.header opt.interval_ms])
            ++ ticks.flatten ++ tail)) ∧
      (opt.json_mode = true → ∀ e ∈ [Event.read] ++ ticks.flatten, e.isHeader = false) := by
  obtain ⟨s, hs, hsamp⟩ := run_loop_progress opt env k (initial opt snap) rfl (by
    intro j hj
    simpa [initial] using hticks j hj)
  obtain ⟨hiter, ticks, t1, t2, t3⟩ := run_loop_trace opt env k (initial opt snap) s
    (by norm_num [initial, U64]) hs
  have hiter2 : s.iter = k := by rw [hiter]; simp [initial]
  have hinit : (initial opt snap).out
      = [Event.read] ++ (if opt.json_mode = true then [] else [Event.header opt.interval_ms]) := by
    simp only [initial, print_header]
    cases opt.json_mode <;> simp
  have hsout : s.out = [Event.read]
      ++ (if opt.json_mode = true then [] else [Event.header opt.interval_ms])
      ++ ticks.flatten := by rw [t2, hinit]
  refine ⟨ticks, t1, ?_, ?_, ?_, ?_⟩
  · intro j hj hj2
    obtain ⟨recs, r1, r2⟩ := t3 j hj
    refine ⟨recs, r1, ?_⟩
    have h0 : (initial opt snap).line_count = 0 := rfl
    rw [r2, h0, Nat.zero_add, Nat.mod_eq_of_lt hj2, print_header_eq]
  · simp only [run, hread, hs, hsout]
  · intro hcause
    obtain ⟨s1, hleave⟩ := iteration_leaves opt env s (by rw [hiter2, hsamp, hiter2]; exact hcause)
    have hmid : ∃ mid : List Event, s1.out = s.out ++ mid ∧
        ∀ e ∈ mid, e.isHeader = false ∧ e.isRecord = false := by
      rcases iteration_leave_inv opt env s s1 hleave with h | ⟨what, h⟩
      · exact ⟨[], by rw [h]; simp, by simp⟩
      · refine ⟨[.sleep opt.interval_ms, .read] ++ [.cerr ("Error: " ++ what ++ "\n")], ?_, ?_⟩
        · rw [h]; simp
        · intro e he
          simp only [List.cons_append, List.nil_append, List.mem_cons, List.mem_singleton,
            List.not_mem_nil, or_false] at he
          rcases he with he | he | he <;> subst he <;> exact ⟨rfl, rfl⟩
    obtain ⟨mid, hm1, hm2⟩ := hmid
    refine ⟨mid ++ (if opt.json_mode = true then [] else [Event.bye]), ?_, ?_⟩
    · intro e he
      rw [List.mem_append] at he
      rcases he with he | he
      · exact hm2 e he
      · cases hj : opt.json_mode
        · simp only [hj, Bool.false_eq_true, if_false, List.mem_singleton] at he
          subst he
          exact ⟨rfl, rfl⟩
        · simp [hj] at he
    · intro fuel hfuel
      have hl := run_loop_of_leave opt env k (initial opt snap) s s1 hs hleave fuel hfuel
      simp only [run, hread, hl, hm1, hsout]
      simp
  · intro hjson e he
    simp only [List.mem_append, List.mem_singleton] at he
    rcases he with he | he
    · subst he; rfl
    · obtain ⟨t, ht, het⟩ := List.mem_flatten.mp he
      obtain ⟨j, hj, hjt⟩ := List.getElem_of_mem ht
      obtain ⟨recs, r1, r2⟩ := t3 j (by omega)
      have hph : print_header opt 20 (((initial opt snap).line_count + j) % U64) = [] := by
        simp [print_header, hjson]
      rw [List.getElem?_eq_getElem hj, hjt, hph] at r2
      injection r2 with r2
      rw [r2] at het
      simp only [List.nil_append, List.cons_append, List.mem_cons] at het
      rcases het with het | het | het
      · subst het; rfl
      · subst het; rfl
      · have := r1 e het
        cases e <;> simp_all [Event.isRecord, Event.isHeader]

theorem banner_positions_witness :
    ∃ ticks : List (List Event), ticks.length = 1 ∧
      (∃ recs : List Event, ticks[0]? = some ([Event.sleep 1000, Event.read]
        ++ ([Event.header 1000] ++ recs))) ∧
      run { } ⟨fun _ => .ok ⟨[("cpu", { user := 4, idle := 6 })]⟩, fun _ => false, fun _ => "t"⟩ 1
        = .running ([Event.read] ++ [Event.header 1000] ++ ticks.flatten) := by
  obtain ⟨ticks, h1, h2, h3, -, -⟩ := banner_positions { }
    ⟨fun _ => .ok ⟨[("cpu", { user := 4, idle := 6 })]⟩, fun _ => false, fun _ => "t"⟩
    ⟨[("cpu", { user := 4, idle := 6 })]⟩ 1 rfl
    (fun j _ => ⟨rfl, fun h => absurd h.1 (by decide), ⟨_, rfl⟩⟩)
  obtain ⟨recs, -, hr⟩ := h2 0 (by decide) (by decide)
  exact ⟨ticks, h1, ⟨recs, by simpa using hr⟩, by simpa using h3⟩


end CpuMonitor
